import Mathlib

/-!
# Light-motor payload sketch: trend classifier and deployment sequencer

A shallow embedding of `src/lightmotorpayload.cpp`.

Modelling conventions.

* `int` / `long` values are unbounded integers: the claims below concern
  readings inside the machine range, where no wrap-around happens, and a
  `double -> int` conversion outside that range has no defined result in C++.
* `double` values are kept exact.  Everything up to `SSE` is computed in `ℚ`;
  the only divisors on that path are the constants `(Σx)² − n·Σx² = −105` and
  `n = 6`, so the rational quotient is the quotient the program computes.
* The test statistic involves square roots and a division whose divisor can be
  zero, so it is computed in `Dbl`: an exact value of the form `±√q`, `±∞` or
  NaN, with the IEEE-754 rules for `x/0`, `0/0` and comparison with NaN.
* Serial output and `delay` have no effect on the state that is modelled.
-/

namespace LightMotorPayload

/-! ## Constants (lines 43-54, 150-151) -/

def PayloadTrendTrainingKey : Int := 0
def PayloadTrendFallingKey : Int := 1
def PayloadTrendSteadyKey : Int := 2
def PayloadTrendRisingKey : Int := 3

def LowLux : Int := 10

def LoadingPayload : Int := 0
def WaitingPayload : Int := 1
def DeployingPayload : Int := 2
def Finished : Int := 3

def LuxHistorySize : Nat := 6
def Critical_t_value : ℚ := 2776445105 / 1000000000

/-! ## Exact `double` values of the test-statistic stage -/

/-- Exact value of a `double` expression: NaN, plus or minus infinity, or the
finite value `±√sq` (`sq ≥ 0`; `neg` is the sign bit, so zero is signed). -/
inductive Dbl where
  | nan : Dbl
  | inf (neg : Bool) : Dbl
  | root (neg : Bool) (sq : ℚ) : Dbl
  deriving DecidableEq, Repr

namespace Dbl

/-- A rational `q` seen as a `Dbl`: `q = sign(q)·√(q²)`. -/
def ofRat (q : ℚ) : Dbl := root (decide (q < 0)) (q * q)

/-- C `sqrt` of a rational argument: NaN below zero, else `+√q`. -/
def sqrt (q : ℚ) : Dbl := if q < 0 then nan else root false q

/-- IEEE-754 division: `x/0 = ±∞` for `x ≠ 0`, `0/0 = ∞/∞ = NaN`,
`x/±∞ = ±0`; the sign of the result is the exclusive or of the signs. -/
def div : Dbl → Dbl → Dbl
  | nan, _ => nan
  | _, nan => nan
  | inf _, inf _ => nan
  | inf a, root b _ => inf (xor a b)
  | root a _, inf b => root (xor a b) 0
  | root a s, root b t =>
      if t = 0 then (if s = 0 then nan else inf (xor a b))
      else root (xor a b) (s / t)

/-- C `fabs`: clears the sign, NaN stays NaN. -/
def fabs : Dbl → Dbl
  | nan => nan
  | inf _ => inf false
  | root _ s => root false s

/-- The comparison `a > c` with a finite `c`; false when `a` is NaN. -/
def gt : Dbl → ℚ → Bool
  | nan, _ => false
  | inf neg, _ => !neg
  | root false s, c => decide (c < 0 ∨ c * c < s)
  | root true s, c => decide (c < 0 ∧ s < c * c)

end Dbl

/-! ## The sample window (lines 153-182) -/

/-- The globals `luxs` (an `int` array of `LuxHistorySize` slots) and
`luxHistoryCount`. -/
structure LuxState where
  luxs : List Int
  luxHistoryCount : Nat
  deriving DecidableEq, Repr

/-- State at program start: `int luxs[LuxHistorySize] = { }`,
`luxHistoryCount = 0`. -/
def LuxState.fresh : LuxState :=
  { luxs := List.replicate LuxHistorySize 0, luxHistoryCount := 0 }

/-- Implicit conversion `double -> int` of the assignments `luxs[..] = newlux`:
the fractional part is discarded (rounding toward zero). -/
def toInt (v : ℚ) : Int := v.num.tdiv v.den

/-- The loop `for (i = 1; i < LuxHistorySize; i++) luxs[i-1] = luxs[i];`. -/
def shiftDown (luxs : List Int) : List Int :=
  (List.range' 1 (LuxHistorySize - 1)).foldl
    (fun a i => a.set (i - 1) (a.getD i 0)) luxs

/-- Lines 162-182: store the new observation, shifting when the array is
full. -/
def pushLux (s : LuxState) (newlux : ℚ) : LuxState :=
  if s.luxHistoryCount < LuxHistorySize then
    { luxs := s.luxs.set s.luxHistoryCount (toInt newlux)
      luxHistoryCount := s.luxHistoryCount + 1 }
  else
    { luxs := (shiftDown s.luxs).set (LuxHistorySize - 1) (toInt newlux)
      luxHistoryCount := s.luxHistoryCount }

/-! ## Regression and hypothesis test (lines 197-322) -/

/-- The four accumulators of the first loop. -/
structure Sums where
  sum_x : ℚ
  sum_xx : ℚ
  sum_y : ℚ
  sum_xy : ℚ
  deriving DecidableEq, Repr

/-- Lines 197-216: `Σx`, `Σx²`, `Σy`, `Σxy` over the window. -/
def regressionSums (luxs : List Int) : Sums :=
  (List.range LuxHistorySize).foldl
    (fun (s : Sums) (i : ℕ) =>
      let x : ℚ := 1 * (i : ℚ)
      let y : ℚ := ((luxs.getD i 0 : Int) : ℚ)
      { sum_x := s.sum_x + x
        sum_xx := s.sum_xx + x * x
        sum_y := s.sum_y + y
        sum_xy := s.sum_xy + x * y })
    { sum_x := 0, sum_xx := 0, sum_y := 0, sum_xy := 0 }

/-- The local `n = 1.0 * LuxHistorySize`. -/
def nD : ℚ := 1 * (LuxHistorySize : ℚ)

/-- Line 219. -/
def slopeOf (luxs : List Int) : ℚ :=
  let s := regressionSums luxs
  (s.sum_x * s.sum_y - nD * s.sum_xy) / (s.sum_x * s.sum_x - nD * s.sum_xx)

/-- Line 220. -/
def interceptOf (luxs : List Int) : ℚ :=
  let s := regressionSums luxs
  (s.sum_y - slopeOf luxs * s.sum_x) / nD

/-- Lines 284-293: the sum of squared residuals. -/
def sseOf (luxs : List Int) : ℚ :=
  (List.range LuxHistorySize).foldl
    (fun (acc : ℚ) (i : ℕ) =>
      let y : ℚ := ((luxs.getD i 0 : Int) : ℚ)
      let residual := y - (interceptOf luxs + slopeOf luxs * (i : ℚ))
      acc + residual * residual)
    0

/-- Lines 301-304: `fabs(slope / (sqrt(SSE/(n-2)) / sqrt(Σx² − Σx·Σx/n)))`. -/
def tObservedOf (luxs : List Int) : Dbl :=
  let s := regressionSums luxs
  Dbl.fabs
    (Dbl.div (Dbl.ofRat (slopeOf luxs))
      (Dbl.div (Dbl.sqrt (sseOf luxs / (nD - 2)))
        (Dbl.sqrt (s.sum_xx - s.sum_x * s.sum_x / nD))))

/-- Lines 197-322: the verdict computed from a full window. -/
def trendOfWindow (luxs : List Int) : Int :=
  if Dbl.gt (tObservedOf luxs) Critical_t_value then
    if slopeOf luxs < 0 then PayloadTrendFallingKey else PayloadTrendRisingKey
  else PayloadTrendSteadyKey

/-- The function `luxAnalysisIncluding`: returns the trend key and the new
values of the globals. -/
def luxAnalysisIncluding (s : LuxState) (newlux : ℚ) : Int × LuxState :=
  let s1 := pushLux s newlux
  if s1.luxHistoryCount < LuxHistorySize then (PayloadTrendTrainingKey, s1)
  else (trendOfWindow s1.luxs, s1)

/-! ## Feeding a sequence of observations -/

/-- Globals after the first `k` calls `luxAnalysisIncluding (obs 0)`, ...,
`luxAnalysisIncluding (obs (k-1))` from the fresh state. -/
def stateAfter (obs : ℕ → ℚ) : ℕ → LuxState
  | 0 => LuxState.fresh
  | k + 1 => (luxAnalysisIncluding (stateAfter obs k) (obs k)).2

/-- Value returned by call number `k + 1`, the one that receives `obs k`. -/
def resultOf (obs : ℕ → ℚ) (k : ℕ) : Int :=
  (luxAnalysisIncluding (stateAfter obs k) (obs k)).1

/-! ## The sketch's main loop (lines 93-122) -/

/-- All mutable state of the sketch: the globals `PayloadState`, `luxVal`, the
window, and the relay driven by `relay.turnRelayOn()` (its on/off flag and
the number of `turnRelayOn` calls made so far). -/
structure Sketch where
  PayloadState : Int
  luxVal : Int
  lux : LuxState
  relayOn : Bool
  relayOnCalls : Nat
  deriving DecidableEq, Repr

/-- State after `setup()`. -/
def Sketch.start : Sketch :=
  { PayloadState := LoadingPayload, luxVal := 0, lux := LuxState.fresh,
    relayOn := false, relayOnCalls := 0 }

/-- The function `startMotor` (lines 119-122). -/
def startMotor (s : Sketch) : Sketch :=
  { s with relayOn := true, relayOnCalls := s.relayOnCalls + 1 }

/-- Lines 104-116: the three `if` statements of `loop()`, which run one after
the other, each on the value of `PayloadState` left by the previous one. -/
def advancePayloadState (PayloadState luxVal trendKey : Int) : Int :=
  let p1 := if PayloadState = LoadingPayload ∧ luxVal < LowLux ∧ trendKey = 2
            then WaitingPayload else PayloadState
  let p2 := if p1 = WaitingPayload ∧ luxVal > LowLux ∧ trendKey = 2
            then DeployingPayload else p1
  if p2 = DeployingPayload ∧ luxVal > LowLux ∧ trendKey = 2
  then Finished else p2

/-- One pass of `loop()` (lines 93-117); `reading` is what
`light.readLight()` returns on this pass.  `startMotor` is not called. -/
def loop (s : Sketch) (reading : Int) : Sketch :=
  let luxVal := reading
  let r := luxAnalysisIncluding s.lux (luxVal : ℚ)
  let trendKey := r.1
  { s with
    PayloadState := advancePayloadState s.PayloadState luxVal trendKey
    luxVal := luxVal
    lux := r.2 }

/-- The sketch after `setup()` and `k` passes of `loop()` on the readings
`readings 0`, ..., `readings (k-1)`. -/
def sketchAfter (readings : ℕ → Int) : ℕ → Sketch
  | 0 => Sketch.start
  | k + 1 => loop (sketchAfter readings k) (readings k)

/-! ## Input sequences used below -/

/-- The arithmetic sequence `a, a+d, a+2d, ...`. -/
def ramp (a d : Int) : ℕ → ℚ := fun j => ((a + (j : Int) * d : Int) : ℚ)

/-- The inputs `5, 5, 5, 5, 5, 4` (and `4` from then on). -/
def goldenInputs : ℕ → ℚ := fun j => (((if j < 5 then 5 else 4 : Int)) : ℚ)

/-- Six readings of 5 lux, then 11 lux. -/
def darkThenLight : ℕ → Int := fun j => if j < 6 then 5 else 11

/-! ## Student's t distribution -/

/-- Cumulative distribution function of Student's t distribution with 4
degrees of freedom, in closed form:
`F(t) = 1/2 + (3/8)·x·(1 − x²/12)` with `x = t / √(1 + t²/4)`.  This is the
distribution the comment above `Critical_t_value` (lines 127-149) refers to,
with `ν = LuxHistorySize − 2 = 4`. -/
noncomputable def studentT4Cdf (t : ℝ) : ℝ :=
  let x := t / Real.sqrt (1 + t ^ 2 / 4)
  1 / 2 + 3 / 8 * x * (1 - x ^ 2 / 12)

/-! ## Invariant of the window -/

/-- What is known about the globals after `k` calls. -/
structure WindowInv (obs : ℕ → ℚ) (k : ℕ) (s : LuxState) : Prop where
  count : s.luxHistoryCount = min k 6
  len : s.luxs.length = 6
  entries : ∀ i, i < min k 6 → s.luxs.getD i 0 = toInt (obs (k - 6 + i))

/-! ## Closed forms, spec-side quantities and the bounds-checked function -/

/-- Closed form of the verdict as a function of slope and SSE alone; it is
proved equal to `trendOfWindow` on six-entry windows in `trendOfWindow_six`
(`70 = (n − 2)·(Σx² − (Σx)²/n)` for `n = 6`). -/
def verdictOf (slope sse : ℚ) : Int :=
  if sse = 0 then
    (if slope = 0 then PayloadTrendSteadyKey
     else if slope < 0 then PayloadTrendFallingKey else PayloadTrendRisingKey)
  else if Critical_t_value * Critical_t_value * sse < slope * slope * 70 then
    (if slope < 0 then PayloadTrendFallingKey else PayloadTrendRisingKey)
  else PayloadTrendSteadyKey

/-- The inputs `0.0, 0.1, 0.2, ...`. -/
def tenths : ℕ → ℚ := fun j => (j : ℚ) / 10

/-- The accumulators `sum_x` and `sum_xx` of the first loop (lines 206-216)
when the history array has `n` slots; they do not depend on the samples. -/
def xSums (n : ℕ) : ℚ × ℚ :=
  (List.range n).foldl
    (fun (s : ℚ × ℚ) (i : ℕ) =>
      let x : ℚ := 1 * (i : ℚ)
      (s.1 + x, s.2 + x * x))
    (0, 0)

/-- Sum of squared residuals of the window against the line `b + a·x`, over
the reals. -/
noncomputable def residualSumSq (luxs : List Int) (a b : ℝ) : ℝ :=
  (List.range LuxHistorySize).foldl
    (fun (acc : ℝ) (i : ℕ) =>
      acc + (((luxs.getD i 0 : Int) : ℝ) - (b + a * (i : ℝ))) ^ 2)
    0

/-- The test statistic as the spec words it, over the reals:
`tObserved = |slope / (sqrt(SSE/(n−2)) / sqrt(Σx² − (Σx)²/n))|`. -/
noncomputable def specTObserved (luxs : List Int) : ℝ :=
  |((slopeOf luxs : ℚ) : ℝ) /
    (Real.sqrt (((sseOf luxs : ℚ) : ℝ) / (((nD : ℚ) : ℝ) - 2)) /
      Real.sqrt ((((regressionSums luxs).sum_xx : ℚ) : ℝ) -
        (((regressionSums luxs).sum_x : ℚ) : ℝ) * (((regressionSums luxs).sum_x : ℚ) : ℝ) /
          ((nD : ℚ) : ℝ)))|

/-- The spec's decision rule applied to `specTObserved`. -/
noncomputable def specVerdict (luxs : List Int) : Int :=
  if specTObserved luxs > ((Critical_t_value : ℚ) : ℝ) then
    if slopeOf luxs < 0 then PayloadTrendFallingKey else PayloadTrendRisingKey
  else PayloadTrendSteadyKey

/-! ## Bounds-checked reading of `luxAnalysisIncluding` -/

/-- The array read `luxs[i]`, failing when `i` is outside the array. -/
def readLux (luxs : List Int) (i : ℕ) : Option Int := luxs[i]?

/-- The array write `luxs[i] = v`, failing when `i` is outside the array. -/
def writeLux (luxs : List Int) (i : ℕ) (v : Int) : Option (List Int) :=
  if i < luxs.length then some (luxs.set i v) else none

/-- The shifting loop of lines 173-177 with checked accesses. -/
def shiftDownChecked (luxs : List Int) : Option (List Int) :=
  (List.range' 1 (LuxHistorySize - 1)).foldlM
    (fun a i => do
      let v ← readLux a i
      writeLux a (i - 1) v)
    luxs

/-- Lines 162-182 with checked accesses. -/
def pushLuxChecked (s : LuxState) (newlux : ℚ) : Option LuxState :=
  if s.luxHistoryCount < LuxHistorySize then do
    let l ← writeLux s.luxs s.luxHistoryCount (toInt newlux)
    pure { luxs := l, luxHistoryCount := s.luxHistoryCount + 1 }
  else do
    let l ← shiftDownChecked s.luxs
    let l2 ← writeLux l (LuxHistorySize - 1) (toInt newlux)
    pure { luxs := l2, luxHistoryCount := s.luxHistoryCount }

/-- Lines 197-216 with checked reads. -/
def regressionSumsChecked (luxs : List Int) : Option Sums :=
  (List.range LuxHistorySize).foldlM
    (fun (s : Sums) (i : ℕ) => do
      let yi ← readLux luxs i
      let x : ℚ := 1 * (i : ℚ)
      let y : ℚ := (yi : ℚ)
      pure { sum_x := s.sum_x + x
             sum_xx := s.sum_xx + x * x
             sum_y := s.sum_y + y
             sum_xy := s.sum_xy + x * y })
    { sum_x := 0, sum_xx := 0, sum_y := 0, sum_xy := 0 }

/-- Lines 284-293 with checked reads. -/
def sseChecked (luxs : List Int) (slope intercept : ℚ) : Option ℚ :=
  (List.range LuxHistorySize).foldlM
    (fun (acc : ℚ) (i : ℕ) => do
      let yi ← readLux luxs i
      let y : ℚ := (yi : ℚ)
      let residual := y - (intercept + slope * (i : ℚ))
      pure (acc + residual * residual))
    0

/-- Lines 197-322 with checked reads. -/
def trendOfWindowChecked (luxs : List Int) : Option Int := do
  let sums ← regressionSumsChecked luxs
  let slope := (sums.sum_x * sums.sum_y - nD * sums.sum_xy) /
    (sums.sum_x * sums.sum_x - nD * sums.sum_xx)
  let intercept := (sums.sum_y - slope * sums.sum_x) / nD
  let SSE ← sseChecked luxs slope intercept
  let tObserved :=
    Dbl.fabs
      (Dbl.div (Dbl.ofRat slope)
        (Dbl.div (Dbl.sqrt (SSE / (nD - 2)))
          (Dbl.sqrt (sums.sum_xx - sums.sum_x * sums.sum_x / nD))))
  if Dbl.gt tObserved Critical_t_value then
    if slope < 0 then pure PayloadTrendFallingKey else pure PayloadTrendRisingKey
  else pure PayloadTrendSteadyKey

/-- The whole of `luxAnalysisIncluding` with every array access checked:
`none` means that some access fell outside `luxs`. -/
def luxAnalysisIncludingChecked (s : LuxState) (newlux : ℚ) : Option (Int × LuxState) := do
  let s1 ← pushLuxChecked s newlux
  if s1.luxHistoryCount < LuxHistorySize then pure (PayloadTrendTrainingKey, s1)
  else do
    let t ← trendOfWindowChecked s1.luxs
    pure (t, s1)

/-! ## Window lemmas -/

theorem list_length_six (l : List Int) (h : l.length = 6) :
    ∃ a b c d e f, l = [a, b, c, d, e, f] := by
  match l, h with
  | [a, b, c, d, e, f], _ => exact ⟨a, b, c, d, e, f, rfl⟩

theorem shiftDown_six (a b c d e f : Int) :
    shiftDown [a, b, c, d, e, f] = [b, c, d, e, f, f] := by
  simp [shiftDown, LuxHistorySize, List.range', List.foldl]

theorem pushLux_full (a b c d e f : Int) (n : ℕ) (h : ¬ n < 6) (v : ℚ) :
    pushLux ⟨[a, b, c, d, e, f], n⟩ v = ⟨[b, c, d, e, f, toInt v], n⟩ := by
  simp [pushLux, LuxHistorySize, shiftDown_six, h]

theorem toInt_intCast (z : Int) : toInt (z : ℚ) = z := by
  simp [toInt]

theorem pushLux_inv (obs : ℕ → ℚ) (k : ℕ) (s : LuxState)
    (h : WindowInv obs k s) : WindowInv obs (k + 1) (pushLux s (obs k)) := by
  obtain ⟨hc, hl, he⟩ := h
  obtain ⟨l, n⟩ := s
  simp only at hc hl he
  obtain ⟨a, b, c, d, e, f, rfl⟩ := list_length_six l hl
  by_cases hk : k < 6
  · have hn : n = k := by omega
    subst hn
    have h0 : n + 1 - 6 = 0 := by omega
    have h1 : n - 6 = 0 := by omega
    refine ⟨?_, ?_, ?_⟩
    · simp [pushLux, LuxHistorySize, hk]; omega
    · simp [pushLux, LuxHistorySize, hk]
    · intro i hi
      have hi' : i < n + 1 := by omega
      rw [h0]
      by_cases hin : i = n
      · subst hin
        interval_cases i <;> simp [pushLux, LuxHistorySize]
      · have hlt : i < min n 6 := by omega
        have hin2 : i < n := by omega
        have := he i hlt
        rw [h1] at this
        rw [← this]
        clear this he hc hi hi' hin hlt h0 h1
        interval_cases n <;> interval_cases i <;> simp [pushLux, LuxHistorySize]
  · have hn : n = 6 := by omega
    subst hn
    rw [pushLux_full _ _ _ _ _ _ _ (by omega)]
    refine ⟨?_, ?_, ?_⟩
    · simp; omega
    · simp
    · intro i hi
      have hi6 : i < 6 := by omega
      by_cases h5 : i = 5
      · subst h5
        have : k + 1 - 6 + 5 = k := by omega
        rw [this]
        simp
      · have hlt : i + 1 < min k 6 := by omega
        have := he (i + 1) hlt
        have e2 : k + 1 - 6 + i = k - 6 + (i + 1) := by omega
        rw [e2, ← this]
        have h5lt : i < 5 := by omega
        clear this he hc hi hlt e2 h5 hi6
        interval_cases i <;> simp

theorem stateAfter_inv (obs : ℕ → ℚ) (k : ℕ) : WindowInv obs k (stateAfter obs k) := by
  induction k with
  | zero =>
    refine ⟨by simp [stateAfter, LuxState.fresh], by simp [stateAfter, LuxState.fresh, LuxHistorySize], ?_⟩
    intro i hi
    simp at hi
  | succ k ih =>
    have := pushLux_inv obs k _ ih
    have e : stateAfter obs (k + 1) = pushLux (stateAfter obs k) (obs k) := by
      simp only [stateAfter, luxAnalysisIncluding]
      split <;> rfl
    rw [e]; exact this


theorem range_six : List.range LuxHistorySize = [0, 1, 2, 3, 4, 5] := by decide

theorem nD_eq : nD = 6 := by norm_num [nD, LuxHistorySize]

theorem regressionSums_six (a b c d e f : Int) :
    regressionSums [a, b, c, d, e, f] =
      { sum_x := 15, sum_xx := 55,
        sum_y := a + b + c + d + e + f,
        sum_xy := b + 2 * c + 3 * d + 4 * e + 5 * f } := by
  simp only [regressionSums, range_six, List.foldl, List.getD_cons_zero, List.getD_cons_succ]
  norm_num

theorem slopeOf_six (a b c d e f : Int) :
    slopeOf [a, b, c, d, e, f] =
      (-5 * a - 3 * b - c + d + 3 * e + 5 * f) / 35 := by
  simp only [slopeOf, regressionSums_six, nD_eq]
  field_simp
  ring

theorem interceptOf_six (a b c d e f : Int) :
    interceptOf [a, b, c, d, e, f] =
      (11 * a + 8 * b + 5 * c + 2 * d - e - 4 * f) / 21 := by
  simp only [interceptOf, slopeOf_six, regressionSums_six, nD_eq]
  field_simp
  ring

theorem sseOf_six (a b c d e f : Int) :
    sseOf [a, b, c, d, e, f] =
      (a - (interceptOf [a, b, c, d, e, f] + slopeOf [a, b, c, d, e, f] * 0)) ^ 2 +
      (b - (interceptOf [a, b, c, d, e, f] + slopeOf [a, b, c, d, e, f] * 1)) ^ 2 +
      (c - (interceptOf [a, b, c, d, e, f] + slopeOf [a, b, c, d, e, f] * 2)) ^ 2 +
      (d - (interceptOf [a, b, c, d, e, f] + slopeOf [a, b, c, d, e, f] * 3)) ^ 2 +
      (e - (interceptOf [a, b, c, d, e, f] + slopeOf [a, b, c, d, e, f] * 4)) ^ 2 +
      (f - (interceptOf [a, b, c, d, e, f] + slopeOf [a, b, c, d, e, f] * 5)) ^ 2 := by
  simp only [sseOf, range_six, List.foldl, List.getD_cons_zero, List.getD_cons_succ]
  push_cast
  ring

theorem tObservedOf_six (a b c d e f : Int) :
    tObservedOf [a, b, c, d, e, f] =
      Dbl.fabs (Dbl.div (Dbl.ofRat (slopeOf [a, b, c, d, e, f]))
        (Dbl.div (Dbl.sqrt (sseOf [a, b, c, d, e, f] / 4)) (Dbl.sqrt (35 / 2)))) := by
  simp only [tObservedOf, regressionSums_six, nD_eq]
  norm_num


theorem trendOfWindow_cases (l : List Int) :
    trendOfWindow l = PayloadTrendFallingKey ∨ trendOfWindow l = PayloadTrendSteadyKey ∨
      trendOfWindow l = PayloadTrendRisingKey := by
  unfold trendOfWindow
  split
  · split
    · exact Or.inl rfl
    · exact Or.inr (Or.inr rfl)
  · exact Or.inr (Or.inl rfl)

theorem stateAfter_succ (obs : ℕ → ℚ) (k : ℕ) :
    stateAfter obs (k + 1) = pushLux (stateAfter obs k) (obs k) := by
  simp only [stateAfter, luxAnalysisIncluding]
  split <;> rfl

theorem resultOf_eq (obs : ℕ → ℚ) (k : ℕ) :
    resultOf obs k =
      if k + 1 < 6 then PayloadTrendTrainingKey
      else trendOfWindow (stateAfter obs (k + 1)).luxs := by
  have hc := (stateAfter_inv obs (k + 1)).count
  rw [stateAfter_succ] at hc
  simp only [resultOf, luxAnalysisIncluding, stateAfter_succ, hc, LuxHistorySize]
  by_cases h : k + 1 < 6
  · have : min (k + 1) 6 < 6 := by omega
    simp [h, this]
  · have : ¬ min (k + 1) 6 < 6 := by omega
    simp [h, this]

theorem list_six_of_getD (l : List Int) (h : l.length = 6) :
    l = [l.getD 0 0, l.getD 1 0, l.getD 2 0, l.getD 3 0, l.getD 4 0, l.getD 5 0] := by
  obtain ⟨a, b, c, d, e, f, rfl⟩ := list_length_six l h
  simp

theorem luxs_of_full (obs : ℕ → ℚ) (k : ℕ) (hk : 6 ≤ k) :
    (stateAfter obs k).luxs =
      [toInt (obs (k - 6)), toInt (obs (k - 6 + 1)), toInt (obs (k - 6 + 2)),
       toInt (obs (k - 6 + 3)), toInt (obs (k - 6 + 4)), toInt (obs (k - 6 + 5))] := by
  obtain ⟨_, hl, he⟩ := stateAfter_inv obs k
  have hm : min k 6 = 6 := by omega
  rw [hm] at he
  rw [list_six_of_getD _ hl, he 0 (by omega), he 1 (by omega), he 2 (by omega),
    he 3 (by omega), he 4 (by omega), he 5 (by omega)]
  simp

/-- Claim C1 (warm-up gate).  From the fresh state and for every sequence of
observations, each of the first `LuxHistorySize - 1 = 5` calls returns
`Training`, and the 6th call and every later call returns a symbol other than
`Training`, namely `Falling`, `Steady` or `Rising`; the change from warm-up to
steady operation is therefore one-way. -/
theorem warmup_gate (obs : ℕ → ℚ) (k : ℕ) :
    (k < LuxHistorySize - 1 → resultOf obs k = PayloadTrendTrainingKey) ∧
    (LuxHistorySize - 1 ≤ k →
      resultOf obs k ≠ PayloadTrendTrainingKey ∧
      (resultOf obs k = PayloadTrendFallingKey ∨ resultOf obs k = PayloadTrendSteadyKey ∨
        resultOf obs k = PayloadTrendRisingKey)) := by
  rw [resultOf_eq]
  constructor
  · intro h
    have : k + 1 < 6 := by simp [LuxHistorySize] at h; omega
    simp [this]
  · intro h
    have : ¬ k + 1 < 6 := by simp [LuxHistorySize] at h; omega
    simp only [this, if_false]
    have hc := trendOfWindow_cases (stateAfter obs (k + 1)).luxs
    refine ⟨?_, hc⟩
    rcases hc with h1 | h1 | h1 <;> rw [h1] <;> decide

theorem warmup_gate_witness :
    resultOf (fun _ => 5) 2 = PayloadTrendTrainingKey ∧
    (resultOf (fun _ => 5) 7 ≠ PayloadTrendTrainingKey ∧
      (resultOf (fun _ => 5) 7 = PayloadTrendFallingKey ∨
        resultOf (fun _ => 5) 7 = PayloadTrendSteadyKey ∨
        resultOf (fun _ => 5) 7 = PayloadTrendRisingKey)) :=
  ⟨(warmup_gate (fun _ => 5) 2).1 (by decide), (warmup_gate (fun _ => 5) 7).2 (by decide)⟩

/-- Claim C2 (FIFO).  After `k > 6` integer-valued observations fed from the
fresh state the window has exactly 6 entries, entry `i` is observation number
`k - 6 + i` (the most recent six pushes, oldest first), and the last push
dropped exactly the oldest entry of the previous window and appended the new
value at the end. -/
theorem window_fifo (obs : ℕ → ℤ) (k : ℕ) (hk : LuxHistorySize < k) :
    (stateAfter (fun j => (obs j : ℚ)) k).luxs.length = LuxHistorySize ∧
    (∀ i, i < LuxHistorySize →
      (stateAfter (fun j => (obs j : ℚ)) k).luxs[i]? = some (obs (k - LuxHistorySize + i))) ∧
    (stateAfter (fun j => (obs j : ℚ)) k).luxs =
      (stateAfter (fun j => (obs j : ℚ)) (k - 1)).luxs.drop 1 ++ [obs (k - 1)] := by
  simp only [LuxHistorySize] at hk ⊢
  have h1 := luxs_of_full (fun j => (obs j : ℚ)) k (by omega)
  have h2 := luxs_of_full (fun j => (obs j : ℚ)) (k - 1) (by omega)
  simp only [toInt_intCast] at h1 h2
  rw [h1, h2]
  refine ⟨rfl, ?_, ?_⟩
  · intro i hi
    interval_cases i <;> simp
  · have e : ∀ j, k - 1 - 6 + (j + 1) = k - 6 + j := by intro j; omega
    have e0 : k - 1 = k - 6 + 5 := by omega
    simp only [List.drop_succ_cons, List.drop_zero, List.cons_append, List.nil_append]
    rw [e 0, e 1, e 2, e 3, e 4, e0]
    simp

theorem window_fifo_witness :
    (stateAfter (fun j => ((j : ℤ) : ℚ)) 8).luxs.length = LuxHistorySize ∧
    (∀ i, i < LuxHistorySize →
      (stateAfter (fun j => ((j : ℤ) : ℚ)) 8).luxs[i]? = some ((8 - LuxHistorySize + i : ℕ) : ℤ)) ∧
    (stateAfter (fun j => ((j : ℤ) : ℚ)) 8).luxs =
      (stateAfter (fun j => ((j : ℤ) : ℚ)) (8 - 1)).luxs.drop 1 ++ [((8 - 1 : ℕ) : ℤ)] :=
  window_fifo (fun j => (j : ℤ)) 8 (by decide)


theorem Dbl.sqrt_of_nonneg (q : ℚ) (h : 0 ≤ q) : Dbl.sqrt q = Dbl.root false q := by
  simp [Dbl.sqrt, not_lt.mpr h]

theorem Dbl.div_root_root (a b : Bool) (s t : ℚ) :
    Dbl.div (Dbl.root a s) (Dbl.root b t) =
      if t = 0 then (if s = 0 then Dbl.nan else Dbl.inf (xor a b))
      else Dbl.root (xor a b) (s / t) := rfl

theorem stdErr_six (sse : ℚ) (h : 0 ≤ sse) :
    Dbl.div (Dbl.sqrt (sse / 4)) (Dbl.sqrt (35 / 2)) = Dbl.root false (sse / 70) := by
  rw [Dbl.sqrt_of_nonneg _ (by positivity), Dbl.sqrt_of_nonneg _ (by norm_num),
    Dbl.div_root_root, if_neg (by norm_num)]
  congr 1
  ring

theorem tObservedOf_zero_sse (a b c d e f : Int) (h : sseOf [a, b, c, d, e, f] = 0) :
    tObservedOf [a, b, c, d, e, f] =
      if slopeOf [a, b, c, d, e, f] = 0 then Dbl.nan else Dbl.inf false := by
  rw [tObservedOf_six, h, stdErr_six 0 le_rfl, Dbl.ofRat, Dbl.div_root_root]
  by_cases hs : slopeOf [a, b, c, d, e, f] = 0
  · simp [hs, Dbl.fabs]
  · simp [hs, Dbl.fabs]

theorem trendOfWindow_zero_sse (a b c d e f : Int) (h : sseOf [a, b, c, d, e, f] = 0) :
    trendOfWindow [a, b, c, d, e, f] =
      if slopeOf [a, b, c, d, e, f] = 0 then PayloadTrendSteadyKey
      else if slopeOf [a, b, c, d, e, f] < 0 then PayloadTrendFallingKey
      else PayloadTrendRisingKey := by
  rw [trendOfWindow, tObservedOf_zero_sse _ _ _ _ _ _ h]
  by_cases hs : slopeOf [a, b, c, d, e, f] = 0
  · simp [hs, Dbl.gt]
  · simp [hs, Dbl.gt]

theorem slopeOf_ramp (b d : Int) :
    slopeOf [b, b + d, b + 2 * d, b + 3 * d, b + 4 * d, b + 5 * d] = d := by
  rw [slopeOf_six]; push_cast; ring

theorem interceptOf_ramp (b d : Int) :
    interceptOf [b, b + d, b + 2 * d, b + 3 * d, b + 4 * d, b + 5 * d] = b := by
  rw [interceptOf_six]; push_cast; ring

theorem sseOf_ramp (b d : Int) :
    sseOf [b, b + d, b + 2 * d, b + 3 * d, b + 4 * d, b + 5 * d] = 0 := by
  rw [sseOf_six, slopeOf_ramp, interceptOf_ramp]; push_cast; ring

theorem trendOfWindow_ramp (b d : Int) :
    trendOfWindow [b, b + d, b + 2 * d, b + 3 * d, b + 4 * d, b + 5 * d] =
      if d = 0 then PayloadTrendSteadyKey
      else if d < 0 then PayloadTrendFallingKey else PayloadTrendRisingKey := by
  rw [trendOfWindow_zero_sse _ _ _ _ _ _ (sseOf_ramp b d), slopeOf_ramp]
  simp

theorem resultOf_ramp (a d : Int) (k : ℕ) (hk : 5 ≤ k) :
    resultOf (ramp a d) k =
      if d = 0 then PayloadTrendSteadyKey
      else if d < 0 then PayloadTrendFallingKey else PayloadTrendRisingKey := by
  rw [resultOf_eq, if_neg (by omega), luxs_of_full _ _ (by omega)]
  simp only [ramp, toInt_intCast]
  rw [← trendOfWindow_ramp (a + ((k + 1 - 6 : ℕ) : Int) * d) d]
  congr 1
  simp only [List.cons.injEq, and_true]
  push_cast
  refine ⟨trivial, ?_, ?_, ?_, ?_, ?_⟩ <;> ring

/-- Claim C3 (monotone ramp).  For the arithmetic sequence `a, a+d, a+2d, ...`
with integers `a`, `d` fed from the fresh state, every call from the 6th
onward returns `Rising` when `d > 0` and `Falling` when `d < 0`. -/
theorem monotone_ramp (a d : Int) (k : ℕ) (hk : LuxHistorySize - 1 ≤ k) :
    (0 < d → resultOf (ramp a d) k = PayloadTrendRisingKey) ∧
    (d < 0 → resultOf (ramp a d) k = PayloadTrendFallingKey) := by
  rw [resultOf_ramp a d k (by simpa [LuxHistorySize] using hk)]
  constructor
  · intro h
    rw [if_neg (by omega), if_neg (by omega)]
  · intro h
    rw [if_neg (by omega), if_pos h]

theorem monotone_ramp_witness :
    resultOf (ramp 0 1) 6 = PayloadTrendRisingKey ∧
      resultOf (ramp 40 (-3)) 9 = PayloadTrendFallingKey :=
  ⟨(monotone_ramp 0 1 6 (by decide)).1 (by decide),
   (monotone_ramp 40 (-3) 9 (by decide)).2 (by decide)⟩

/-- Claim C5 (constant input).  For every integer `c`, feeding `c, c, c, ...`
from the fresh state makes every call from the 6th onward return `Steady`:
on the window the slope is 0, the sum of squared residuals is 0, and the test
statistic is the NaN produced by `0/0`. -/
theorem constant_input_steady (c : Int) (k : ℕ) (hk : LuxHistorySize - 1 ≤ k) :
    resultOf (fun _ => (c : ℚ)) k = PayloadTrendSteadyKey ∧
    slopeOf (stateAfter (fun _ => (c : ℚ)) (k + 1)).luxs = 0 ∧
    sseOf (stateAfter (fun _ => (c : ℚ)) (k + 1)).luxs = 0 ∧
    tObservedOf (stateAfter (fun _ => (c : ℚ)) (k + 1)).luxs = Dbl.nan := by
  have hk5 : 5 ≤ k := by simpa [LuxHistorySize] using hk
  have hw := luxs_of_full (fun _ => (c : ℚ)) (k + 1) (by omega)
  simp only [toInt_intCast] at hw
  have hs : slopeOf [c, c, c, c, c, c] = 0 := by rw [slopeOf_six]; ring
  have hi : interceptOf [c, c, c, c, c, c] = c := by rw [interceptOf_six]; ring
  have he : sseOf [c, c, c, c, c, c] = 0 := by rw [sseOf_six, hs, hi]; ring
  rw [resultOf_eq, if_neg (by omega), hw]
  refine ⟨?_, hs, he, ?_⟩
  · rw [trendOfWindow_zero_sse _ _ _ _ _ _ he, if_pos hs]
  · rw [tObservedOf_zero_sse _ _ _ _ _ _ he, if_pos hs]

theorem constant_input_steady_witness :
    resultOf (fun _ => ((7 : Int) : ℚ)) 8 = PayloadTrendSteadyKey ∧
    slopeOf (stateAfter (fun _ => ((7 : Int) : ℚ)) (8 + 1)).luxs = 0 ∧
    sseOf (stateAfter (fun _ => ((7 : Int) : ℚ)) (8 + 1)).luxs = 0 ∧
    tObservedOf (stateAfter (fun _ => ((7 : Int) : ℚ)) (8 + 1)).luxs = Dbl.nan :=
  constant_input_steady 7 8 (by decide)


theorem luxs_ramp (a d : Int) (k : ℕ) (hk : 6 ≤ k) :
    (stateAfter (ramp a d) k).luxs =
      [a + ((k - 6 : ℕ) : Int) * d, a + ((k - 6 : ℕ) : Int) * d + d,
       a + ((k - 6 : ℕ) : Int) * d + 2 * d, a + ((k - 6 : ℕ) : Int) * d + 3 * d,
       a + ((k - 6 : ℕ) : Int) * d + 4 * d, a + ((k - 6 : ℕ) : Int) * d + 5 * d] := by
  rw [luxs_of_full _ _ hk]
  simp only [ramp, toInt_intCast]
  simp only [List.cons.injEq, and_true]
  push_cast
  refine ⟨trivial, ?_, ?_, ?_, ?_, ?_⟩ <;> ring

theorem sseOf_luxs_ramp (a d : Int) (k : ℕ) (hk : 6 ≤ k) :
    sseOf (stateAfter (ramp a d) k).luxs = 0 := by
  rw [luxs_ramp a d k hk]; exact sseOf_ramp _ d

/-- Claim C4 fails as stated: after the inputs `0, 1, 2, 3, 4, 5` the window
is `[0, 1, 2, 3, 4, 5]`, its sum of squared residuals is zero, and the sixth
call returns `Rising`, not `Steady`. -/
theorem zero_sse_ramp_not_steady :
    (stateAfter (ramp 0 1) 6).luxs = [0, 1, 2, 3, 4, 5] ∧
    sseOf (stateAfter (ramp 0 1) 6).luxs = 0 ∧
    resultOf (ramp 0 1) 5 = PayloadTrendRisingKey ∧
    resultOf (ramp 0 1) 5 ≠ PayloadTrendSteadyKey := by
  have h := resultOf_ramp 0 1 5 (le_refl 5)
  rw [if_neg (by decide), if_neg (by decide)] at h
  refine ⟨?_, sseOf_luxs_ramp 0 1 6 (le_refl 6), h, ?_⟩
  · rw [luxs_ramp 0 1 6 (le_refl 6)]; simp
  · rw [h]; decide

/-- Claim C4, amended.  On every full window whose sum of squared residuals
is zero the call returns `Steady` when the fitted slope is zero (the statistic
is `0/0`, a NaN, and the comparison with the critical value is false),
`Falling` when the slope is negative and `Rising` when it is positive (the
statistic is `+∞`). -/
theorem zero_sse_verdict (obs : ℕ → ℚ) (k : ℕ) (hk : LuxHistorySize - 1 ≤ k)
    (h : sseOf (stateAfter obs (k + 1)).luxs = 0) :
    resultOf obs k =
      if slopeOf (stateAfter obs (k + 1)).luxs = 0 then PayloadTrendSteadyKey
      else if slopeOf (stateAfter obs (k + 1)).luxs < 0 then PayloadTrendFallingKey
      else PayloadTrendRisingKey := by
  have hk5 : 5 ≤ k := by simpa [LuxHistorySize] using hk
  obtain ⟨a, b, c, d, e, f, hw⟩ := list_length_six _ (stateAfter_inv obs (k + 1)).len
  rw [resultOf_eq, if_neg (by omega)]
  rw [hw] at h ⊢
  exact trendOfWindow_zero_sse a b c d e f h

theorem zero_sse_verdict_witness :
    resultOf (ramp 5 0) 5 =
      if slopeOf (stateAfter (ramp 5 0) (5 + 1)).luxs = 0 then PayloadTrendSteadyKey
      else if slopeOf (stateAfter (ramp 5 0) (5 + 1)).luxs < 0 then PayloadTrendFallingKey
      else PayloadTrendRisingKey :=
  zero_sse_verdict (ramp 5 0) 5 (by decide) (sseOf_luxs_ramp 5 0 6 (le_refl 6))

/-- Claim C6 (golden scenario).  On the inputs `5, 5, 5, 5, 5, 4` the first
five calls return `Training`; on the sixth call the window is
`[5, 5, 5, 5, 5, 4]`, the slope is `-1/7`, the intercept `109/21`, the sum of
squared residuals `10/21`, the test statistic is `√3` (its square is exactly
3, below the square of `Critical_t_value`), the comparison
`tObserved > Critical_t_value` is false and the call returns `Steady`. -/
theorem golden_scenario :
    resultOf goldenInputs 0 = PayloadTrendTrainingKey ∧
    resultOf goldenInputs 1 = PayloadTrendTrainingKey ∧
    resultOf goldenInputs 2 = PayloadTrendTrainingKey ∧
    resultOf goldenInputs 3 = PayloadTrendTrainingKey ∧
    resultOf goldenInputs 4 = PayloadTrendTrainingKey ∧
    (stateAfter goldenInputs 6).luxs = [5, 5, 5, 5, 5, 4] ∧
    slopeOf [5, 5, 5, 5, 5, 4] = -1 / 7 ∧
    interceptOf [5, 5, 5, 5, 5, 4] = 109 / 21 ∧
    sseOf [5, 5, 5, 5, 5, 4] = 10 / 21 ∧
    tObservedOf [5, 5, 5, 5, 5, 4] = Dbl.root false 3 ∧
    (3 : ℚ) < Critical_t_value * Critical_t_value ∧
    Dbl.gt (tObservedOf [5, 5, 5, 5, 5, 4]) Critical_t_value = false ∧
    resultOf goldenInputs 5 = PayloadTrendSteadyKey := by
  have hw : (stateAfter goldenInputs 6).luxs = [5, 5, 5, 5, 5, 4] := by
    rw [luxs_of_full _ _ (le_refl 6)]
    simp only [goldenInputs, toInt_intCast]
    simp
  have hs : slopeOf [5, 5, 5, 5, 5, 4] = -1 / 7 := by rw [slopeOf_six]; norm_num
  have hi : interceptOf [5, 5, 5, 5, 5, 4] = 109 / 21 := by rw [interceptOf_six]; norm_num
  have he : sseOf [5, 5, 5, 5, 5, 4] = 10 / 21 := by rw [sseOf_six, hs, hi]; norm_num
  have ht : tObservedOf [5, 5, 5, 5, 5, 4] = Dbl.root false 3 := by
    rw [tObservedOf_six, he, hs, stdErr_six _ (by norm_num), Dbl.ofRat, Dbl.div_root_root]
    norm_num [Dbl.fabs]
  have hc : (3 : ℚ) < Critical_t_value * Critical_t_value := by
    norm_num [Critical_t_value]
  have hg : Dbl.gt (tObservedOf [5, 5, 5, 5, 5, 4]) Critical_t_value = false := by
    rw [ht]
    simp only [Dbl.gt, decide_eq_false_iff_not, not_or, not_lt]
    exact ⟨by norm_num [Critical_t_value], le_of_lt hc⟩
  refine ⟨?_, ?_, ?_, ?_, ?_, hw, hs, hi, he, ht, hc, hg, ?_⟩
  · rw [resultOf_eq, if_pos (by decide)]
  · rw [resultOf_eq, if_pos (by decide)]
  · rw [resultOf_eq, if_pos (by decide)]
  · rw [resultOf_eq, if_pos (by decide)]
  · rw [resultOf_eq, if_pos (by decide)]
  · rw [resultOf_eq, if_neg (by decide), hw, trendOfWindow, hg]
    simp

/-! ## The main loop -/

theorem sketchAfter_lux (readings : ℕ → Int) (k : ℕ) :
    (sketchAfter readings k).lux = stateAfter (fun j => (readings j : ℚ)) k := by
  induction k with
  | zero => rfl
  | succ k ih => simp only [sketchAfter, loop, stateAfter, ih]

theorem trendKey_sketchAfter (readings : ℕ → Int) (k : ℕ) :
    (luxAnalysisIncluding (sketchAfter readings k).lux (readings k : ℚ)).1 =
      resultOf (fun j => (readings j : ℚ)) k := by
  rw [sketchAfter_lux]; rfl

theorem loop_PayloadState (s : Sketch) (reading : Int) :
    (loop s reading).PayloadState =
      advancePayloadState s.PayloadState reading
        (luxAnalysisIncluding s.lux (reading : ℚ)).1 := rfl

theorem advance_loading (luxVal trendKey : Int) :
    advancePayloadState LoadingPayload luxVal trendKey =
      if luxVal < LowLux ∧ trendKey = PayloadTrendSteadyKey then WaitingPayload
      else LoadingPayload := by
  simp only [advancePayloadState, LoadingPayload, WaitingPayload, DeployingPayload, Finished,
    LowLux, PayloadTrendSteadyKey]
  by_cases h1 : luxVal < 10 <;> by_cases h2 : trendKey = 2 <;> simp [h1, h2]
  omega

theorem advance_waiting (luxVal trendKey : Int) :
    advancePayloadState WaitingPayload luxVal trendKey =
      if luxVal > LowLux ∧ trendKey = PayloadTrendSteadyKey then Finished
      else WaitingPayload := by
  simp only [advancePayloadState, LoadingPayload, WaitingPayload, DeployingPayload, Finished,
    LowLux, PayloadTrendSteadyKey]
  by_cases h1 : luxVal > 10 <;> by_cases h2 : trendKey = 2 <;> simp [h1, h2]

theorem trendOfWindow_dark : trendOfWindow [5, 5, 5, 5, 5, 5] = PayloadTrendSteadyKey := by
  have h := trendOfWindow_ramp 5 0
  simpa using h

theorem trendOfWindow_dark_light :
    trendOfWindow [5, 5, 5, 5, 5, 11] = PayloadTrendSteadyKey := by
  have hs : slopeOf [5, 5, 5, 5, 5, 11] = 6 / 7 := by rw [slopeOf_six]; norm_num
  have hi : interceptOf [5, 5, 5, 5, 5, 11] = 27 / 7 := by rw [interceptOf_six]; norm_num
  have he : sseOf [5, 5, 5, 5, 5, 11] = 120 / 7 := by rw [sseOf_six, hs, hi]; norm_num
  have ht : tObservedOf [5, 5, 5, 5, 5, 11] = Dbl.root false 3 := by
    rw [tObservedOf_six, he, hs, stdErr_six _ (by norm_num), Dbl.ofRat, Dbl.div_root_root]
    norm_num [Dbl.fabs]
  rw [trendOfWindow, ht]
  norm_num [Dbl.gt, Critical_t_value]

theorem resultOf_darkThenLight_5 :
    resultOf (fun j => (darkThenLight j : ℚ)) 5 = PayloadTrendSteadyKey := by
  rw [resultOf_eq, if_neg (by decide), luxs_of_full _ _ (le_refl 6)]
  simp only [toInt_intCast, darkThenLight]
  exact trendOfWindow_dark

theorem resultOf_darkThenLight_6 :
    resultOf (fun j => (darkThenLight j : ℚ)) 6 = PayloadTrendSteadyKey := by
  rw [resultOf_eq, if_neg (by decide), luxs_of_full _ _ (by decide)]
  simp only [toInt_intCast, darkThenLight]
  exact trendOfWindow_dark_light

theorem sketchAfter_loading (readings : ℕ → Int) (k : ℕ) (hk : k ≤ 5) :
    (sketchAfter readings k).PayloadState = LoadingPayload := by
  induction k with
  | zero => rfl
  | succ k ih =>
    have ht : resultOf (fun j => (readings j : ℚ)) k = PayloadTrendTrainingKey := by
      rw [resultOf_eq, if_pos (by omega)]
    rw [sketchAfter, loop_PayloadState, ih (by omega), trendKey_sketchAfter, ht, advance_loading]
    simp [PayloadTrendTrainingKey, PayloadTrendSteadyKey]

theorem sketchAfter_darkThenLight_6 :
    (sketchAfter darkThenLight 6).PayloadState = WaitingPayload := by
  rw [sketchAfter, loop_PayloadState, sketchAfter_loading _ 5 (le_refl 5), trendKey_sketchAfter,
    resultOf_darkThenLight_5, advance_loading]
  simp [darkThenLight, LowLux]

/-- Claim C9 (Loading to Waiting).  For every pass of `loop()` that starts in
`LoadingPayload`, the state at the end is `WaitingPayload` if and only if the
reading is below `LowLux` and the trend key is `Steady`; otherwise it is still
`LoadingPayload`.  In particular a reading equal to `LowLux`, or a trend key
other than `Steady`, causes no transition. -/
theorem loading_to_waiting (s : Sketch) (reading : Int)
    (h : s.PayloadState = LoadingPayload) :
    ((loop s reading).PayloadState = WaitingPayload ↔
      (reading < LowLux ∧
        (luxAnalysisIncluding s.lux (reading : ℚ)).1 = PayloadTrendSteadyKey)) ∧
    (¬ (reading < LowLux ∧
        (luxAnalysisIncluding s.lux (reading : ℚ)).1 = PayloadTrendSteadyKey) →
      (loop s reading).PayloadState = LoadingPayload) ∧
    (reading = LowLux → (loop s reading).PayloadState = LoadingPayload) ∧
    ((luxAnalysisIncluding s.lux (reading : ℚ)).1 ≠ PayloadTrendSteadyKey →
      (loop s reading).PayloadState = LoadingPayload) := by
  rw [loop_PayloadState, h, advance_loading]
  by_cases hc : reading < LowLux ∧
      (luxAnalysisIncluding s.lux (reading : ℚ)).1 = PayloadTrendSteadyKey
  · rw [if_pos hc]
    refine ⟨⟨fun _ => hc, fun _ => rfl⟩, fun hn => absurd hc hn, ?_, fun hn => absurd hc.2 hn⟩
    intro he
    have := hc.1
    omega
  · rw [if_neg hc]
    refine ⟨⟨fun h0 => ?_, fun h0 => absurd h0 hc⟩, fun _ => rfl, fun _ => rfl, fun _ => rfl⟩
    simp [LoadingPayload, WaitingPayload] at h0

theorem loading_to_waiting_witness :
    ((loop (sketchAfter darkThenLight 5) 5).PayloadState = WaitingPayload ↔
      ((5 : Int) < LowLux ∧
        (luxAnalysisIncluding (sketchAfter darkThenLight 5).lux ((5 : Int) : ℚ)).1 =
          PayloadTrendSteadyKey)) ∧
    (¬ ((5 : Int) < LowLux ∧
        (luxAnalysisIncluding (sketchAfter darkThenLight 5).lux ((5 : Int) : ℚ)).1 =
          PayloadTrendSteadyKey) →
      (loop (sketchAfter darkThenLight 5) 5).PayloadState = LoadingPayload) ∧
    ((5 : Int) = LowLux → (loop (sketchAfter darkThenLight 5) 5).PayloadState = LoadingPayload) ∧
    ((luxAnalysisIncluding (sketchAfter darkThenLight 5).lux ((5 : Int) : ℚ)).1 ≠
        PayloadTrendSteadyKey →
      (loop (sketchAfter darkThenLight 5) 5).PayloadState = LoadingPayload) :=
  loading_to_waiting (sketchAfter darkThenLight 5) 5 (sketchAfter_loading _ 5 (le_refl 5))

/-- Claim C7 evaluated on the code: a pass of `loop()` that starts in
`WaitingPayload` with a reading above `LowLux` and trend `Steady` ends in
`Finished`, not in `DeployingPayload`; the second and third `if` both fire on
the same pass. -/
theorem waiting_tick_ends_finished (s : Sketch) (reading : Int)
    (h : s.PayloadState = WaitingPayload) (hr : reading > LowLux)
    (ht : (luxAnalysisIncluding s.lux (reading : ℚ)).1 = PayloadTrendSteadyKey) :
    (loop s reading).PayloadState = Finished ∧
    (loop s reading).PayloadState ≠ DeployingPayload := by
  rw [loop_PayloadState, h, advance_waiting, if_pos ⟨hr, ht⟩]
  exact ⟨rfl, by decide⟩

theorem waiting_tick_ends_finished_witness :
    (loop (sketchAfter darkThenLight 6) 11).PayloadState = Finished ∧
    (loop (sketchAfter darkThenLight 6) 11).PayloadState ≠ DeployingPayload :=
  waiting_tick_ends_finished (sketchAfter darkThenLight 6) 11
    sketchAfter_darkThenLight_6 (by decide)
    ((trendKey_sketchAfter darkThenLight 6).trans resultOf_darkThenLight_6)

/-- Claim C8 evaluated on the code: on a pass of `loop()` that enters
`WaitingPayload` (state `LoadingPayload`, reading below `LowLux`, trend
`Steady`) the relay is left as it was and the number of `turnRelayOn` calls
does not change; `startMotor`, which would switch the relay on, is not
called. -/
theorem entering_waiting_leaves_relay_off (s : Sketch) (reading : Int)
    (h : s.PayloadState = LoadingPayload) (hr : reading < LowLux)
    (ht : (luxAnalysisIncluding s.lux (reading : ℚ)).1 = PayloadTrendSteadyKey) :
    (loop s reading).PayloadState = WaitingPayload ∧
    (loop s reading).relayOnCalls = s.relayOnCalls ∧
    (loop s reading).relayOn = s.relayOn ∧
    (startMotor (loop s reading)).relayOnCalls = s.relayOnCalls + 1 ∧
    (startMotor (loop s reading)).relayOn = true := by
  refine ⟨?_, rfl, rfl, rfl, rfl⟩
  rw [loop_PayloadState, h, advance_loading, if_pos ⟨hr, ht⟩]

theorem entering_waiting_leaves_relay_off_witness :
    (loop (sketchAfter darkThenLight 5) 5).PayloadState = WaitingPayload ∧
    (loop (sketchAfter darkThenLight 5) 5).relayOnCalls =
      (sketchAfter darkThenLight 5).relayOnCalls ∧
    (loop (sketchAfter darkThenLight 5) 5).relayOn = (sketchAfter darkThenLight 5).relayOn ∧
    (startMotor (loop (sketchAfter darkThenLight 5) 5)).relayOnCalls =
      (sketchAfter darkThenLight 5).relayOnCalls + 1 ∧
    (startMotor (loop (sketchAfter darkThenLight 5) 5)).relayOn = true :=
  entering_waiting_leaves_relay_off (sketchAfter darkThenLight 5) 5
    (sketchAfter_loading _ 5 (le_refl 5)) (by decide)
    ((trendKey_sketchAfter darkThenLight 5).trans resultOf_darkThenLight_5)

/-! ## The critical value -/

/-- The distribution function is `1/2` at the origin. -/
theorem studentT4Cdf_zero : studentT4Cdf 0 = 1 / 2 := by
  simp [studentT4Cdf]

/-- The derivative of `studentT4Cdf` is the density of Student's t
distribution with 4 degrees of freedom, `(3/8)·(1 + t²/4)^(-5/2)`. -/
theorem studentT4Cdf_hasDerivAt (t : ℝ) :
    HasDerivAt studentT4Cdf (3 / 8 * (Real.sqrt (1 + t ^ 2 / 4) ^ 5)⁻¹) t := by
  have hpos : (0 : ℝ) < 1 + t ^ 2 / 4 := by positivity
  have hs0 : Real.sqrt (1 + t ^ 2 / 4) ≠ 0 := ne_of_gt (Real.sqrt_pos.mpr hpos)
  have hsq : Real.sqrt (1 + t ^ 2 / 4) ^ 2 = 1 + t ^ 2 / 4 := Real.sq_sqrt hpos.le
  have h1 : HasDerivAt (fun u : ℝ => 1 + u ^ 2 / 4) (t / 2) t := by
    have := ((hasDerivAt_pow 2 t).div_const 4).const_add 1
    convert this using 1
    ring
  have h2 := h1.sqrt (ne_of_gt hpos)
  have h3 := (hasDerivAt_id t).div h2 hs0
  have h4 := (((h3.pow 2).div_const 12).const_sub 1)
  have h5 := ((h3.const_mul (3 / 8 : ℝ)).mul h4).const_add (1 / 2)
  have e : studentT4Cdf = fun u : ℝ =>
      1 / 2 + 3 / 8 * (id u / Real.sqrt (1 + u ^ 2 / 4)) *
        (1 - (id u / Real.sqrt (1 + u ^ 2 / 4)) ^ 2 / 12) := by
    funext u; simp [studentT4Cdf]
  rw [e]
  convert h5 using 1
  simp only [id]
  generalize hS : Real.sqrt (1 + t ^ 2 / 4) = S at hs0 hsq ⊢
  have ht2 : t ^ 2 = 4 * S ^ 2 - 4 := by linarith
  field_simp
  ring_nf
  have ht4 : t ^ 4 = (4 * S ^ 2 - 4) ^ 2 := by rw [← ht2]; ring
  rw [ht4, ht2]
  ring

theorem critical_cast : ((Critical_t_value : ℚ) : ℝ) = 2776445105 / 1000000000 := by
  simp only [Critical_t_value]; push_cast; rfl

theorem sqrt_bounds :
    (17108950450771 / 10000000000000 : ℝ) <
        Real.sqrt (1 + (2776445105 / 1000000000 : ℝ) ^ 2 / 4) ∧
      Real.sqrt (1 + (2776445105 / 1000000000 : ℝ) ^ 2 / 4) <
        (17108950450772 / 10000000000000 : ℝ) := by
  constructor
  · rw [Real.lt_sqrt (by norm_num)]; norm_num
  · rw [Real.sqrt_lt' (by norm_num)]; norm_num

theorem x_bounds :
    (162280270375 / 100000000000 : ℝ) <
        (2776445105 / 1000000000 : ℝ) / Real.sqrt (1 + (2776445105 / 1000000000 : ℝ) ^ 2 / 4) ∧
      (2776445105 / 1000000000 : ℝ) / Real.sqrt (1 + (2776445105 / 1000000000 : ℝ) ^ 2 / 4) <
        (162280270376 / 100000000000 : ℝ) := by
  obtain ⟨hlo, hhi⟩ := sqrt_bounds
  have hs : (0 : ℝ) < Real.sqrt (1 + (2776445105 / 1000000000 : ℝ) ^ 2 / 4) :=
    lt_trans (by norm_num) hlo
  constructor
  · rw [lt_div_iff₀ hs]; nlinarith
  · rw [div_lt_iff₀ hs]; nlinarith

/-- Claim C10 (critical value and capacity).  The degrees of freedom are
`LuxHistorySize - 2 = 4`, and `Critical_t_value` is the two-tailed 5% critical
value of Student's t distribution with 4 degrees of freedom to within `1e-9`:
`|F(Critical_t_value) - 0.975| < 1e-9` for the cumulative distribution
function `F`. -/
theorem critical_value_matches_capacity :
    LuxHistorySize - 2 = 4 ∧
    |studentT4Cdf (Critical_t_value : ℝ) - 0.975| < 1 / 1000000000 := by
  refine ⟨rfl, ?_⟩
  rw [critical_cast]
  simp only [studentT4Cdf]
  obtain ⟨hlo, hhi⟩ := x_bounds
  generalize (2776445105 / 1000000000 : ℝ) /
    Real.sqrt (1 + (2776445105 / 1000000000 : ℝ) ^ 2 / 4) = x at hlo hhi
  have hx0 : (0 : ℝ) ≤ 162280270375 / 100000000000 := by norm_num
  have h3lo : (162280270375 / 100000000000 : ℝ) ^ 3 < x ^ 3 :=
    pow_lt_pow_left₀ hlo hx0 (by norm_num)
  have h3hi : x ^ 3 < (162280270376 / 100000000000 : ℝ) ^ 3 :=
    pow_lt_pow_left₀ hhi (le_of_lt (lt_of_le_of_lt hx0 hlo)) (by norm_num)
  have e : (1 / 2 + 3 / 8 * x * (1 - x ^ 2 / 12) : ℝ) = 1 / 2 + 3 / 8 * x - x ^ 3 / 32 := by
    ring
  rw [e, abs_lt]
  constructor
  · norm_num at h3hi h3lo ⊢; linarith
  · norm_num at h3hi h3lo ⊢; linarith

/-! ## The decision rule without square roots -/

theorem sseOf_six_nonneg (a b c d e f : Int) : 0 ≤ sseOf [a, b, c, d, e, f] := by
  rw [sseOf_six]; positivity

theorem critical_pos : 0 < Critical_t_value := by norm_num [Critical_t_value]

theorem tObservedOf_pos_sse (a b c d e f : Int) (h : 0 < sseOf [a, b, c, d, e, f]) :
    tObservedOf [a, b, c, d, e, f] =
      Dbl.root false (slopeOf [a, b, c, d, e, f] * slopeOf [a, b, c, d, e, f] /
        (sseOf [a, b, c, d, e, f] / 70)) := by
  rw [tObservedOf_six, stdErr_six _ h.le, Dbl.ofRat, Dbl.div_root_root,
    if_neg (by positivity), Dbl.fabs]

theorem gt_tObservedOf_pos_sse (a b c d e f : Int) (h : 0 < sseOf [a, b, c, d, e, f]) :
    Dbl.gt (tObservedOf [a, b, c, d, e, f]) Critical_t_value = true ↔
      Critical_t_value * Critical_t_value * sseOf [a, b, c, d, e, f] <
        slopeOf [a, b, c, d, e, f] * slopeOf [a, b, c, d, e, f] * 70 := by
  rw [tObservedOf_pos_sse _ _ _ _ _ _ h]
  simp only [Dbl.gt, decide_eq_true_eq]
  have hc := critical_pos
  rw [lt_div_iff₀ (by positivity)]
  constructor
  · rintro (h1 | h1)
    · exact absurd h1 (not_lt.mpr hc.le)
    · linarith
  · intro h1
    right
    linarith

theorem trendOfWindow_pos_sse (a b c d e f : Int) (h : 0 < sseOf [a, b, c, d, e, f]) :
    trendOfWindow [a, b, c, d, e, f] =
      if Critical_t_value * Critical_t_value * sseOf [a, b, c, d, e, f] <
          slopeOf [a, b, c, d, e, f] * slopeOf [a, b, c, d, e, f] * 70 then
        (if slopeOf [a, b, c, d, e, f] < 0 then PayloadTrendFallingKey
         else PayloadTrendRisingKey)
      else PayloadTrendSteadyKey := by
  have hg := gt_tObservedOf_pos_sse a b c d e f h
  rw [trendOfWindow]
  by_cases hc : Critical_t_value * Critical_t_value * sseOf [a, b, c, d, e, f] <
      slopeOf [a, b, c, d, e, f] * slopeOf [a, b, c, d, e, f] * 70
  · rw [if_pos (hg.mpr hc), if_pos hc]
  · rw [if_neg (fun h1 => hc (hg.mp h1)), if_neg hc]

theorem trendOfWindow_six (a b c d e f : Int) :
    trendOfWindow [a, b, c, d, e, f] =
      verdictOf (slopeOf [a, b, c, d, e, f]) (sseOf [a, b, c, d, e, f]) := by
  unfold verdictOf
  by_cases h0 : sseOf [a, b, c, d, e, f] = 0
  · rw [if_pos h0, trendOfWindow_zero_sse _ _ _ _ _ _ h0]
  · rw [if_neg h0, trendOfWindow_pos_sse _ _ _ _ _ _
      (lt_of_le_of_ne (sseOf_six_nonneg a b c d e f) (Ne.symm h0))]

/-! ## The verdict and the sign of the slope -/

theorem verdictOf_zero_slope (sse : ℚ) (h : 0 ≤ sse) :
    verdictOf 0 sse = PayloadTrendSteadyKey := by
  unfold verdictOf
  have hc := mul_pos critical_pos critical_pos
  by_cases h1 : sse = 0
  · simp [h1]
  · have h2 : ¬ Critical_t_value * Critical_t_value * sse < 0 * 0 * 70 := by
      have := mul_nonneg hc.le h
      linarith
    rw [if_neg h1, if_neg h2]

theorem verdictOf_rising (slope sse : ℚ) (h0 : 0 ≤ sse)
    (h : verdictOf slope sse = PayloadTrendRisingKey) : 0 < slope := by
  rcases lt_trichotomy slope 0 with h1 | h1 | h1
  · unfold verdictOf at h
    split_ifs at h <;> exact absurd h (by decide)
  · rw [h1, verdictOf_zero_slope sse h0] at h
    exact absurd h (by decide)
  · exact h1

theorem verdictOf_falling (slope sse : ℚ) (h : verdictOf slope sse = PayloadTrendFallingKey) :
    slope < 0 := by
  unfold verdictOf at h
  by_contra hn
  split_ifs at h <;> exact absurd h (by decide)

/-- Claim C13 (the verdict agrees with the sign of the slope).  On every full
window, `Rising` is returned only when the fitted slope is strictly positive
and `Falling` only when it is strictly negative; hence a window with no net
slope (`Σx·Σy = n·Σxy`), such as the oscillating window `1, 3, 2, 2, 3, 1`,
has slope 0 and is classified `Steady`. -/
theorem verdict_agrees_with_slope_sign (luxs : List Int) (h : luxs.length = LuxHistorySize) :
    (trendOfWindow luxs = PayloadTrendRisingKey → 0 < slopeOf luxs) ∧
    (trendOfWindow luxs = PayloadTrendFallingKey → slopeOf luxs < 0) ∧
    ((regressionSums luxs).sum_x * (regressionSums luxs).sum_y =
        nD * (regressionSums luxs).sum_xy →
      slopeOf luxs = 0 ∧ trendOfWindow luxs = PayloadTrendSteadyKey) ∧
    trendOfWindow [1, 3, 2, 2, 3, 1] = PayloadTrendSteadyKey := by
  obtain ⟨a, b, c, d, e, f, rfl⟩ := list_length_six luxs h
  refine ⟨?_, ?_, ?_, ?_⟩
  · rw [trendOfWindow_six]; exact verdictOf_rising _ _ (sseOf_six_nonneg _ _ _ _ _ _)
  · rw [trendOfWindow_six]; exact verdictOf_falling _ _
  · intro h0
    have hs : slopeOf [a, b, c, d, e, f] = 0 := by
      rw [slopeOf, h0, sub_self, zero_div]
    exact ⟨hs, by rw [trendOfWindow_six, hs]; exact verdictOf_zero_slope _ (sseOf_six_nonneg _ _ _ _ _ _)⟩
  · have hs : slopeOf [1, 3, 2, 2, 3, 1] = 0 := by rw [slopeOf_six]; norm_num
    rw [trendOfWindow_six, hs]
    exact verdictOf_zero_slope _ (sseOf_six_nonneg _ _ _ _ _ _)

/-! ## Affine changes of the window -/

theorem slopeOf_affine (g h : Int) (a b c d e f : Int) :
    slopeOf [g * a + h, g * b + h, g * c + h, g * d + h, g * e + h, g * f + h] =
      g * slopeOf [a, b, c, d, e, f] := by
  simp only [slopeOf_six]; push_cast; ring

theorem interceptOf_affine (g h : Int) (a b c d e f : Int) :
    interceptOf [g * a + h, g * b + h, g * c + h, g * d + h, g * e + h, g * f + h] =
      g * interceptOf [a, b, c, d, e, f] + h := by
  simp only [interceptOf_six]; push_cast; ring

theorem sseOf_affine (g h : Int) (a b c d e f : Int) :
    sseOf [g * a + h, g * b + h, g * c + h, g * d + h, g * e + h, g * f + h] =
      g * g * sseOf [a, b, c, d, e, f] := by
  rw [sseOf_six, sseOf_six, slopeOf_affine, interceptOf_affine]; push_cast; ring

theorem verdictOf_scale (g slope sse : ℚ) (hg : 0 < g) :
    verdictOf (g * slope) (g * g * sse) = verdictOf slope sse := by
  have hgg : 0 < g * g := mul_pos hg hg
  have e1 : (g * g * sse = 0) ↔ sse = 0 := by
    constructor
    · intro h; rcases mul_eq_zero.mp h with h | h
      · exact absurd h (ne_of_gt hgg)
      · exact h
    · intro h; rw [h, mul_zero]
  have e2 : (g * slope = 0) ↔ slope = 0 := by
    constructor
    · intro h; rcases mul_eq_zero.mp h with h | h
      · exact absurd h (ne_of_gt hg)
      · exact h
    · intro h; rw [h, mul_zero]
  have e3 : (g * slope < 0) ↔ slope < 0 := by
    constructor
    · intro h; by_contra hn; exact absurd h (not_lt.mpr (mul_nonneg hg.le (not_lt.mp hn)))
    · intro h; exact mul_neg_of_pos_of_neg hg h
  have e4 : (Critical_t_value * Critical_t_value * (g * g * sse) < g * slope * (g * slope) * 70) ↔
      (Critical_t_value * Critical_t_value * sse < slope * slope * 70) := by
    have l : Critical_t_value * Critical_t_value * (g * g * sse) =
        g * g * (Critical_t_value * Critical_t_value * sse) := by ring
    have r : g * slope * (g * slope) * 70 = g * g * (slope * slope * 70) := by ring
    rw [l, r]
    exact mul_lt_mul_left hgg
  unfold verdictOf
  simp only [e1, e2, e3, e4]

theorem verdictOf_neg (slope sse : ℚ) (h0 : 0 ≤ sse) :
    verdictOf (-slope) sse =
      if verdictOf slope sse = PayloadTrendRisingKey then PayloadTrendFallingKey
      else if verdictOf slope sse = PayloadTrendFallingKey then PayloadTrendRisingKey
      else PayloadTrendSteadyKey := by
  rcases lt_trichotomy slope 0 with h1 | h1 | h1
  · have hn : ¬ (-slope < 0) := by linarith
    have hn0 : -slope ≠ 0 := by intro h; linarith
    have h0' : slope ≠ 0 := ne_of_lt h1
    unfold verdictOf
    simp only [neg_mul_neg, hn, hn0, h0', h1, if_true, if_false]
    by_cases hs : sse = 0 <;>
      by_cases hc : Critical_t_value * Critical_t_value * sse < slope * slope * 70 <;>
      simp [hs, hc, PayloadTrendRisingKey, PayloadTrendFallingKey, PayloadTrendSteadyKey]
  · subst h1
    rw [neg_zero, verdictOf_zero_slope sse h0]
    decide
  · have hn : -slope < 0 := by linarith
    have hn0 : -slope ≠ 0 := by intro h; linarith
    have h0' : slope ≠ 0 := ne_of_gt h1
    have h1' : ¬ slope < 0 := not_lt.mpr h1.le
    unfold verdictOf
    simp only [neg_mul_neg, hn, hn0, h0', h1', if_true, if_false]
    by_cases hs : sse = 0 <;>
      by_cases hc : Critical_t_value * Critical_t_value * sse < slope * slope * 70 <;>
      simp [hs, hc, PayloadTrendRisingKey, PayloadTrendFallingKey, PayloadTrendSteadyKey]

/-! ## Truncation of the stored observations -/

theorem toInt_of_nonneg (q : ℚ) (h : 0 ≤ q) : toInt q = ⌊q⌋ := by
  rw [toInt, Rat.floor_def, Int.tdiv_eq_ediv (Rat.num_nonneg.mpr h) (Int.ofNat_nonneg _)]

theorem toInt_neg (q : ℚ) : toInt (-q) = -toInt q := by
  simp [toInt]

theorem toInt_of_nonpos (q : ℚ) (h : q ≤ 0) : toInt q = ⌈q⌉ := by
  have h1 := toInt_of_nonneg (-q) (by linarith)
  rw [toInt_neg, Int.floor_neg] at h1
  exact neg_injective h1

theorem toInt_tenths (n : ℕ) (h : n < 10) : toInt (tenths n) = 0 := by
  have h0 : (0 : ℚ) ≤ (n : ℚ) / 10 := by positivity
  rw [tenths, toInt_of_nonneg _ h0, Int.floor_eq_zero_iff]
  refine ⟨h0, ?_⟩
  rw [div_lt_one (by norm_num)]
  exact_mod_cast h

theorem pushLux_toInt (s : LuxState) (v : ℚ) :
    pushLux s ((toInt v : Int) : ℚ) = pushLux s v := by
  simp only [pushLux, toInt_intCast]

theorem stateAfter_toInt (obs : ℕ → ℚ) (k : ℕ) :
    stateAfter (fun j => ((toInt (obs j) : Int) : ℚ)) k = stateAfter obs k := by
  induction k with
  | zero => rfl
  | succ k ih => rw [stateAfter_succ, stateAfter_succ, ih, pushLux_toInt]

/-- Claim C20 (observations are stored truncated).  For every sequence of
observations every call returns the same symbol, and leaves the same globals,
as for the sequence in which each observation `v` is replaced by its
truncation toward zero (`⌊v⌋` for `v ≥ 0`, `⌈v⌉` otherwise); the inputs
`0.0, 0.1, 0.2, 0.3, 0.4, 0.5` give the window `0, 0, 0, 0, 0, 0` and are
classified like the constant input 0, namely `Steady`. -/
theorem observations_truncated (obs : ℕ → ℚ) (k : ℕ) :
    resultOf obs k = resultOf (fun j => ((toInt (obs j) : Int) : ℚ)) k ∧
    stateAfter obs k = stateAfter (fun j => ((toInt (obs j) : Int) : ℚ)) k ∧
    (∀ q : ℚ, toInt q = if 0 ≤ q then ⌊q⌋ else ⌈q⌉) ∧
    (stateAfter tenths 6).luxs = [0, 0, 0, 0, 0, 0] ∧
    resultOf tenths 5 = resultOf (fun _ => 0) 5 ∧
    resultOf tenths 5 = PayloadTrendSteadyKey := by
  have hw : (stateAfter tenths 6).luxs = [0, 0, 0, 0, 0, 0] := by
    rw [luxs_of_full _ _ (le_refl 6)]
    simp only [Nat.sub_self, Nat.zero_add]
    rw [toInt_tenths 0 (by decide), toInt_tenths 1 (by decide), toInt_tenths 2 (by decide),
      toInt_tenths 3 (by decide), toInt_tenths 4 (by decide), toInt_tenths 5 (by decide)]
  have hz : (stateAfter (fun _ => (0 : ℚ)) 6).luxs = [0, 0, 0, 0, 0, 0] := by
    rw [luxs_of_full _ _ (le_refl 6)]
    simp [toInt]
  have h5 : resultOf tenths 5 = PayloadTrendSteadyKey := by
    rw [resultOf_eq, if_neg (by decide), hw]
    have := trendOfWindow_ramp 0 0
    simpa using this
  refine ⟨?_, (stateAfter_toInt obs k).symm, ?_, hw, ?_, h5⟩
  · rw [resultOf_eq, resultOf_eq, stateAfter_toInt]
  · intro q
    by_cases hq : 0 ≤ q
    · rw [if_pos hq, toInt_of_nonneg q hq]
    · rw [if_neg hq, toInt_of_nonpos q (le_of_lt (not_le.mp hq))]
  · rw [resultOf_eq, if_neg (by decide), hw, resultOf_eq, if_neg (by decide), hz]

/-- Claim C16 (the verdict depends only on the current window).  For two
observation sequences of lengths `k₁, k₂ ≥ 6`, each fed from the fresh state,
whose last six observations are equal, the last call returns the same symbol
and leaves the same window; older observations have no influence. -/
theorem verdict_depends_on_window_only (obs₁ obs₂ : ℕ → ℚ) (k₁ k₂ : ℕ)
    (h₁ : LuxHistorySize ≤ k₁) (h₂ : LuxHistorySize ≤ k₂)
    (h : ∀ i, i < LuxHistorySize →
      obs₁ (k₁ - LuxHistorySize + i) = obs₂ (k₂ - LuxHistorySize + i)) :
    resultOf obs₁ (k₁ - 1) = resultOf obs₂ (k₂ - 1) ∧
    (stateAfter obs₁ k₁).luxs = (stateAfter obs₂ k₂).luxs := by
  simp only [LuxHistorySize] at h₁ h₂ h
  have e₁ : k₁ - 1 + 1 = k₁ := by omega
  have e₂ : k₂ - 1 + 1 = k₂ := by omega
  have hw : (stateAfter obs₁ k₁).luxs = (stateAfter obs₂ k₂).luxs := by
    rw [luxs_of_full _ _ h₁, luxs_of_full _ _ h₂]
    have := h 0 (by decide)
    simp only [Nat.add_zero] at this
    rw [this, h 1 (by decide), h 2 (by decide), h 3 (by decide), h 4 (by decide),
      h 5 (by decide)]
  refine ⟨?_, hw⟩
  rw [resultOf_eq, resultOf_eq, if_neg (by omega), if_neg (by omega), e₁, e₂, hw]

/-- Claim C17 (affine invariance).  For every full window `y₀..y₅` and all
integers `a ≥ 1` and `b`, the window `a·y₀ + b, ..., a·y₅ + b` gets the same
symbol as `y₀..y₅` (exact arithmetic, unbounded integers). -/
theorem verdict_affine_invariant (luxs : List Int) (h : luxs.length = LuxHistorySize)
    (a b : Int) (ha : 1 ≤ a) :
    trendOfWindow (luxs.map (fun y => a * y + b)) = trendOfWindow luxs := by
  obtain ⟨y0, y1, y2, y3, y4, y5, rfl⟩ := list_length_six luxs h
  simp only [List.map_cons, List.map_nil]
  rw [trendOfWindow_six, trendOfWindow_six, slopeOf_affine, sseOf_affine]
  exact verdictOf_scale _ _ _ (by exact_mod_cast (lt_of_lt_of_le zero_lt_one ha))

/-- Claim C18 (sign antisymmetry).  For every full window, the negated window
is `Falling` when the window is `Rising`, `Rising` when it is `Falling`, and
`Steady` when it is `Steady`. -/
theorem verdict_sign_antisymmetric (luxs : List Int) (h : luxs.length = LuxHistorySize) :
    trendOfWindow (luxs.map (fun y => -y)) =
      if trendOfWindow luxs = PayloadTrendRisingKey then PayloadTrendFallingKey
      else if trendOfWindow luxs = PayloadTrendFallingKey then PayloadTrendRisingKey
      else PayloadTrendSteadyKey := by
  obtain ⟨y0, y1, y2, y3, y4, y5, rfl⟩ := list_length_six luxs h
  simp only [List.map_cons, List.map_nil]
  have e : ∀ y : Int, -y = (-1) * y + 0 := by intro y; ring
  rw [e y0, e y1, e y2, e y3, e y4, e y5]
  rw [trendOfWindow_six, trendOfWindow_six, slopeOf_affine, sseOf_affine]
  have h1 : ((-1 : Int) : ℚ) * slopeOf [y0, y1, y2, y3, y4, y5] =
      -slopeOf [y0, y1, y2, y3, y4, y5] := by push_cast; ring
  have h2 : ((-1 : Int) : ℚ) * ((-1 : Int) : ℚ) * sseOf [y0, y1, y2, y3, y4, y5] =
      sseOf [y0, y1, y2, y3, y4, y5] := by push_cast; ring
  rw [h1, h2]
  exact verdictOf_neg _ _ (sseOf_six_nonneg _ _ _ _ _ _)

/-! ## The regression denominator -/

theorem xSums_succ (n : ℕ) :
    xSums (n + 1) = ((xSums n).1 + (n : ℚ), (xSums n).2 + (n : ℚ) * (n : ℚ)) := by
  simp [xSums, List.range_succ, List.foldl_append]

theorem xSums_closed (n : ℕ) :
    xSums n = ((n : ℚ) * ((n : ℚ) - 1) / 2, ((n : ℚ) - 1) * (n : ℚ) * (2 * (n : ℚ) - 1) / 6) := by
  induction n with
  | zero => simp [xSums]
  | succ n ih =>
    rw [xSums_succ, ih]
    push_cast
    ext <;> simp <;> ring

theorem regressionSums_x (luxs : List Int) :
    (regressionSums luxs).sum_x = (xSums LuxHistorySize).1 ∧
    (regressionSums luxs).sum_xx = (xSums LuxHistorySize).2 := by
  simp only [regressionSums, xSums, range_six, List.foldl]
  norm_num

/-- Claim C12 (the regression denominator is never zero).  For every capacity
`n ≥ 3` and `x_i = i`, `(Σx)² − n·Σx² = −n²(n²−1)/12 ≠ 0` and
`Σx² − (Σx)²/n > 0`; for the program's `n = 6` and any samples the two values
are `−105` and `35/2`, so the division that computes the slope never divides
by zero. -/
theorem regression_denominator_nonzero (n : ℕ) (hn : 3 ≤ n) :
    (xSums n).1 * (xSums n).1 - (n : ℚ) * (xSums n).2 =
        -((n : ℚ) ^ 2 * ((n : ℚ) ^ 2 - 1)) / 12 ∧
    (xSums n).1 * (xSums n).1 - (n : ℚ) * (xSums n).2 ≠ 0 ∧
    0 < (xSums n).2 - (xSums n).1 * (xSums n).1 / (n : ℚ) ∧
    (∀ luxs : List Int,
      (regressionSums luxs).sum_x * (regressionSums luxs).sum_x -
          nD * (regressionSums luxs).sum_xx = -105 ∧
      (regressionSums luxs).sum_xx -
          (regressionSums luxs).sum_x * (regressionSums luxs).sum_x / nD = 35 / 2 ∧
      (regressionSums luxs).sum_x * (regressionSums luxs).sum_x -
          nD * (regressionSums luxs).sum_xx ≠ 0) := by
  have hn3 : (3 : ℚ) ≤ (n : ℚ) := by exact_mod_cast hn
  have hn0 : (0 : ℚ) < (n : ℚ) := by linarith
  have e1 : (xSums n).1 * (xSums n).1 - (n : ℚ) * (xSums n).2 =
      -((n : ℚ) ^ 2 * ((n : ℚ) ^ 2 - 1)) / 12 := by
    rw [xSums_closed]; ring
  have hpos : 0 < (n : ℚ) ^ 2 * ((n : ℚ) ^ 2 - 1) := by
    apply mul_pos (by positivity)
    nlinarith
  refine ⟨e1, ?_, ?_, ?_⟩
  · rw [e1]
    intro h
    have : (n : ℚ) ^ 2 * ((n : ℚ) ^ 2 - 1) = 0 := by linarith
    exact absurd this (ne_of_gt hpos)
  · have e2 : (xSums n).2 - (xSums n).1 * (xSums n).1 / (n : ℚ) =
        (n : ℚ) * ((n : ℚ) ^ 2 - 1) / 12 := by
      rw [xSums_closed]; field_simp; ring
    rw [e2]
    apply div_pos _ (by norm_num)
    apply mul_pos hn0
    nlinarith
  · intro luxs
    obtain ⟨hx, hxx⟩ := regressionSums_x luxs
    have hc : xSums LuxHistorySize = (15, 55) := by
      rw [xSums_closed]; norm_num [LuxHistorySize]
    rw [hx, hxx, hc, nD_eq]
    norm_num

theorem regression_denominator_nonzero_witness :
    (xSums 3).1 * (xSums 3).1 - ((3 : ℕ) : ℚ) * (xSums 3).2 =
        -(((3 : ℕ) : ℚ) ^ 2 * (((3 : ℕ) : ℚ) ^ 2 - 1)) / 12 ∧
    (xSums 3).1 * (xSums 3).1 - ((3 : ℕ) : ℚ) * (xSums 3).2 ≠ 0 ∧
    0 < (xSums 3).2 - (xSums 3).1 * (xSums 3).1 / ((3 : ℕ) : ℚ) ∧
    (∀ luxs : List Int,
      (regressionSums luxs).sum_x * (regressionSums luxs).sum_x -
          nD * (regressionSums luxs).sum_xx = -105 ∧
      (regressionSums luxs).sum_xx -
          (regressionSums luxs).sum_x * (regressionSums luxs).sum_x / nD = 35 / 2 ∧
      (regressionSums luxs).sum_x * (regressionSums luxs).sum_x -
          nD * (regressionSums luxs).sum_xx ≠ 0) :=
  regression_denominator_nonzero 3 (le_refl 3)

/-! ## Least squares -/

theorem residualSumSq_six (y0 y1 y2 y3 y4 y5 : Int) (a b : ℝ) :
    residualSumSq [y0, y1, y2, y3, y4, y5] a b =
      ((y0 : ℝ) - (b + a * 0)) ^ 2 + ((y1 : ℝ) - (b + a * 1)) ^ 2 +
      ((y2 : ℝ) - (b + a * 2)) ^ 2 + ((y3 : ℝ) - (b + a * 3)) ^ 2 +
      ((y4 : ℝ) - (b + a * 4)) ^ 2 + ((y5 : ℝ) - (b + a * 5)) ^ 2 := by
  simp only [residualSumSq, range_six, List.foldl, List.getD_cons_zero, List.getD_cons_succ]
  push_cast
  ring

theorem residualSumSq_split (y0 y1 y2 y3 y4 y5 : Int) (a b : ℝ) :
    residualSumSq [y0, y1, y2, y3, y4, y5] a b =
      ((sseOf [y0, y1, y2, y3, y4, y5] : ℚ) : ℝ) +
        (6 * ((b - ((interceptOf [y0, y1, y2, y3, y4, y5] : ℚ) : ℝ)) +
              5 / 2 * (a - ((slopeOf [y0, y1, y2, y3, y4, y5] : ℚ) : ℝ))) ^ 2 +
          35 / 2 * (a - ((slopeOf [y0, y1, y2, y3, y4, y5] : ℚ) : ℝ)) ^ 2) := by
  rw [residualSumSq_six, sseOf_six, interceptOf_six, slopeOf_six]
  push_cast
  ring

/-- Claim C11 (least-squares optimality).  For every full window the computed
pair (slope, intercept) attains the sum of squared residuals `SSE`, no real
line `b + a·x` has a smaller sum of squared residuals, and a line attains
`SSE` only if `(a, b) = (slope, intercept)`. -/
theorem least_squares_optimal (luxs : List Int) (h : luxs.length = LuxHistorySize)
    (a b : ℝ) :
    residualSumSq luxs ((slopeOf luxs : ℚ) : ℝ) ((interceptOf luxs : ℚ) : ℝ) =
        ((sseOf luxs : ℚ) : ℝ) ∧
    ((sseOf luxs : ℚ) : ℝ) ≤ residualSumSq luxs a b ∧
    (residualSumSq luxs a b = ((sseOf luxs : ℚ) : ℝ) ↔
      a = ((slopeOf luxs : ℚ) : ℝ) ∧ b = ((interceptOf luxs : ℚ) : ℝ)) := by
  obtain ⟨y0, y1, y2, y3, y4, y5, rfl⟩ := list_length_six luxs h
  refine ⟨?_, ?_, ?_⟩
  · rw [residualSumSq_split]; ring
  · rw [residualSumSq_split]
    have : (0 : ℝ) ≤ 6 * ((b - ((interceptOf [y0, y1, y2, y3, y4, y5] : ℚ) : ℝ)) +
              5 / 2 * (a - ((slopeOf [y0, y1, y2, y3, y4, y5] : ℚ) : ℝ))) ^ 2 +
          35 / 2 * (a - ((slopeOf [y0, y1, y2, y3, y4, y5] : ℚ) : ℝ)) ^ 2 := by positivity
    linarith
  · rw [residualSumSq_split]
    constructor
    · intro he
      have h1 := sq_nonneg ((b - ((interceptOf [y0, y1, y2, y3, y4, y5] : ℚ) : ℝ)) +
              5 / 2 * (a - ((slopeOf [y0, y1, y2, y3, y4, y5] : ℚ) : ℝ)))
      have h2 := sq_nonneg (a - ((slopeOf [y0, y1, y2, y3, y4, y5] : ℚ) : ℝ))
      have h3 : (a - ((slopeOf [y0, y1, y2, y3, y4, y5] : ℚ) : ℝ)) ^ 2 = 0 := by linarith
      have h4 : a - ((slopeOf [y0, y1, y2, y3, y4, y5] : ℚ) : ℝ) = 0 := by
        exact pow_eq_zero_iff (by norm_num) |>.mp h3
      have h5 : ((b - ((interceptOf [y0, y1, y2, y3, y4, y5] : ℚ) : ℝ)) +
              5 / 2 * (a - ((slopeOf [y0, y1, y2, y3, y4, y5] : ℚ) : ℝ))) ^ 2 = 0 := by
        linarith
      have h6 := pow_eq_zero_iff (by norm_num) |>.mp h5
      rw [h4] at h6
      constructor <;> linarith
    · rintro ⟨ha, hb⟩
      rw [ha, hb]; ring

theorem least_squares_optimal_witness :
    residualSumSq [5, 5, 5, 5, 5, 4] ((slopeOf [5, 5, 5, 5, 5, 4] : ℚ) : ℝ)
        ((interceptOf [5, 5, 5, 5, 5, 4] : ℚ) : ℝ) =
        ((sseOf [5, 5, 5, 5, 5, 4] : ℚ) : ℝ) ∧
    ((sseOf [5, 5, 5, 5, 5, 4] : ℚ) : ℝ) ≤ residualSumSq [5, 5, 5, 5, 5, 4] 0 5 ∧
    (residualSumSq [5, 5, 5, 5, 5, 4] 0 5 = ((sseOf [5, 5, 5, 5, 5, 4] : ℚ) : ℝ) ↔
      (0 : ℝ) = ((slopeOf [5, 5, 5, 5, 5, 4] : ℚ) : ℝ) ∧
        (5 : ℝ) = ((interceptOf [5, 5, 5, 5, 5, 4] : ℚ) : ℝ)) :=
  least_squares_optimal [5, 5, 5, 5, 5, 4] (by decide) 0 5

/-! ## The decision rule and the spec's statistic -/

theorem specTObserved_six (y0 y1 y2 y3 y4 y5 : Int) :
    specTObserved [y0, y1, y2, y3, y4, y5] =
      |((slopeOf [y0, y1, y2, y3, y4, y5] : ℚ) : ℝ) /
        (Real.sqrt (((sseOf [y0, y1, y2, y3, y4, y5] : ℚ) : ℝ) / 4) / Real.sqrt (35 / 2))| := by
  simp only [specTObserved, regressionSums_six, nD_eq]
  norm_num

theorem abs_div_sqrt_gt (s A B c : ℝ) (hA : 0 < A) (hB : 0 < B) (hc : 0 ≤ c) :
    c < |s / (Real.sqrt A / Real.sqrt B)| ↔ c * c * A < s * s * B := by
  have hsA : 0 < Real.sqrt A := Real.sqrt_pos.mpr hA
  have hsB : 0 < Real.sqrt B := Real.sqrt_pos.mpr hB
  have hq : 0 < Real.sqrt A / Real.sqrt B := div_pos hsA hsB
  rw [abs_div, abs_of_pos hq, lt_div_iff₀ hq]
  have e1 : c * (Real.sqrt A / Real.sqrt B) = c * Real.sqrt A / Real.sqrt B := by ring
  rw [e1, div_lt_iff₀ hsB]
  have hl : 0 ≤ c * Real.sqrt A := mul_nonneg hc hsA.le
  have hr : 0 ≤ |s| * Real.sqrt B := mul_nonneg (abs_nonneg s) hsB.le
  rw [← abs_of_nonneg hl, ← abs_of_nonneg hr, ← sq_lt_sq]
  have e2 : (c * Real.sqrt A) ^ 2 = c * c * A := by
    rw [mul_pow, Real.sq_sqrt hA.le]; ring
  have e3 : (|s| * Real.sqrt B) ^ 2 = s * s * B := by
    rw [mul_pow, Real.sq_sqrt hB.le, sq_abs]; ring
  rw [e2, e3]

theorem specTObserved_gt_iff (y0 y1 y2 y3 y4 y5 : Int)
    (h : 0 < sseOf [y0, y1, y2, y3, y4, y5]) :
    specTObserved [y0, y1, y2, y3, y4, y5] > ((Critical_t_value : ℚ) : ℝ) ↔
      Critical_t_value * Critical_t_value * sseOf [y0, y1, y2, y3, y4, y5] <
        slopeOf [y0, y1, y2, y3, y4, y5] * slopeOf [y0, y1, y2, y3, y4, y5] * 70 := by
  have hR : (0 : ℝ) < ((sseOf [y0, y1, y2, y3, y4, y5] : ℚ) : ℝ) / 4 := by
    have : (0 : ℝ) < ((sseOf [y0, y1, y2, y3, y4, y5] : ℚ) : ℝ) := by exact_mod_cast h
    positivity
  have hc : (0 : ℝ) ≤ ((Critical_t_value : ℚ) : ℝ) := by exact_mod_cast critical_pos.le
  rw [gt_iff_lt, specTObserved_six, abs_div_sqrt_gt _ _ _ _ hR (by norm_num) hc]
  constructor
  · intro h1
    have h2 : (((Critical_t_value * Critical_t_value *
        sseOf [y0, y1, y2, y3, y4, y5] : ℚ)) : ℝ) <
        ((slopeOf [y0, y1, y2, y3, y4, y5] * slopeOf [y0, y1, y2, y3, y4, y5] * 70 : ℚ) : ℝ) := by
      push_cast; linarith
    exact_mod_cast h2
  · intro h1
    have h2 : (((Critical_t_value * Critical_t_value *
        sseOf [y0, y1, y2, y3, y4, y5] : ℚ)) : ℝ) <
        ((slopeOf [y0, y1, y2, y3, y4, y5] * slopeOf [y0, y1, y2, y3, y4, y5] * 70 : ℚ) : ℝ) := by
      exact_mod_cast h1
    push_cast at h2
    linarith

/-- Claim C14 (decision rule without square roots).  For every full window
with `SSE > 0` the result is not `Steady` if and only if
`slope²·(n−2)·(Σx² − (Σx)²/n) > Critical_t_value²·SSE`, in which case it is
`Falling` for a negative slope and `Rising` otherwise; it is `Steady` exactly
when the inequality fails.  The inequality is equivalent to the spec's rule
`|slope / (sqrt(SSE/(n−2)) / sqrt(Σx² − (Σx)²/n))| > criticalTValue` over the
reals, and the result equals the spec's verdict. -/
theorem decision_rule_sqrt_free (luxs : List Int) (h : luxs.length = LuxHistorySize)
    (hs : 0 < sseOf luxs) :
    (trendOfWindow luxs ≠ PayloadTrendSteadyKey ↔
      Critical_t_value * Critical_t_value * sseOf luxs <
        slopeOf luxs * slopeOf luxs * (nD - 2) *
          ((regressionSums luxs).sum_xx -
            (regressionSums luxs).sum_x * (regressionSums luxs).sum_x / nD)) ∧
    (trendOfWindow luxs = PayloadTrendSteadyKey ↔
      ¬ Critical_t_value * Critical_t_value * sseOf luxs <
        slopeOf luxs * slopeOf luxs * (nD - 2) *
          ((regressionSums luxs).sum_xx -
            (regressionSums luxs).sum_x * (regressionSums luxs).sum_x / nD)) ∧
    (trendOfWindow luxs ≠ PayloadTrendSteadyKey →
      trendOfWindow luxs =
        if slopeOf luxs < 0 then PayloadTrendFallingKey else PayloadTrendRisingKey) ∧
    (specTObserved luxs > ((Critical_t_value : ℚ) : ℝ) ↔
      Critical_t_value * Critical_t_value * sseOf luxs <
        slopeOf luxs * slopeOf luxs * (nD - 2) *
          ((regressionSums luxs).sum_xx -
            (regressionSums luxs).sum_x * (regressionSums luxs).sum_x / nD)) ∧
    trendOfWindow luxs = specVerdict luxs := by
  obtain ⟨y0, y1, y2, y3, y4, y5, rfl⟩ := list_length_six luxs h
  have e : slopeOf [y0, y1, y2, y3, y4, y5] * slopeOf [y0, y1, y2, y3, y4, y5] * (nD - 2) *
      ((regressionSums [y0, y1, y2, y3, y4, y5]).sum_xx -
        (regressionSums [y0, y1, y2, y3, y4, y5]).sum_x *
          (regressionSums [y0, y1, y2, y3, y4, y5]).sum_x / nD) =
      slopeOf [y0, y1, y2, y3, y4, y5] * slopeOf [y0, y1, y2, y3, y4, y5] * 70 := by
    simp only [regressionSums_six, nD_eq]; ring
  rw [e]
  have ht := trendOfWindow_pos_sse y0 y1 y2 y3 y4 y5 hs
  have hsp := specTObserved_gt_iff y0 y1 y2 y3 y4 y5 hs
  by_cases hc : Critical_t_value * Critical_t_value * sseOf [y0, y1, y2, y3, y4, y5] <
      slopeOf [y0, y1, y2, y3, y4, y5] * slopeOf [y0, y1, y2, y3, y4, y5] * 70
  · rw [if_pos hc] at ht
    have hne : trendOfWindow [y0, y1, y2, y3, y4, y5] ≠ PayloadTrendSteadyKey := by
      rw [ht]; split_ifs <;> decide
    refine ⟨⟨fun _ => hc, fun _ => hne⟩, ⟨fun h1 => absurd h1 hne, fun h1 => absurd hc h1⟩,
      fun _ => ht, hsp, ?_⟩
    rw [specVerdict, if_pos (hsp.mpr hc), ht]
  · rw [if_neg hc] at ht
    refine ⟨⟨fun h1 => absurd ht h1, fun h1 => absurd h1 hc⟩, ⟨fun _ => hc, fun _ => ht⟩,
      fun h1 => absurd ht h1, hsp, ?_⟩
    rw [specVerdict, if_neg (fun h1 => hc (hsp.mp h1)), ht]

theorem decision_rule_sqrt_free_witness :
    (trendOfWindow [5, 5, 5, 5, 5, 4] ≠ PayloadTrendSteadyKey ↔
      Critical_t_value * Critical_t_value * sseOf [5, 5, 5, 5, 5, 4] <
        slopeOf [5, 5, 5, 5, 5, 4] * slopeOf [5, 5, 5, 5, 5, 4] * (nD - 2) *
          ((regressionSums [5, 5, 5, 5, 5, 4]).sum_xx -
            (regressionSums [5, 5, 5, 5, 5, 4]).sum_x *
              (regressionSums [5, 5, 5, 5, 5, 4]).sum_x / nD)) ∧
    (trendOfWindow [5, 5, 5, 5, 5, 4] = PayloadTrendSteadyKey ↔
      ¬ Critical_t_value * Critical_t_value * sseOf [5, 5, 5, 5, 5, 4] <
        slopeOf [5, 5, 5, 5, 5, 4] * slopeOf [5, 5, 5, 5, 5, 4] * (nD - 2) *
          ((regressionSums [5, 5, 5, 5, 5, 4]).sum_xx -
            (regressionSums [5, 5, 5, 5, 5, 4]).sum_x *
              (regressionSums [5, 5, 5, 5, 5, 4]).sum_x / nD)) ∧
    (trendOfWindow [5, 5, 5, 5, 5, 4] ≠ PayloadTrendSteadyKey →
      trendOfWindow [5, 5, 5, 5, 5, 4] =
        if slopeOf [5, 5, 5, 5, 5, 4] < 0 then PayloadTrendFallingKey
        else PayloadTrendRisingKey) ∧
    (specTObserved [5, 5, 5, 5, 5, 4] > ((Critical_t_value : ℚ) : ℝ) ↔
      Critical_t_value * Critical_t_value * sseOf [5, 5, 5, 5, 5, 4] <
        slopeOf [5, 5, 5, 5, 5, 4] * slopeOf [5, 5, 5, 5, 5, 4] * (nD - 2) *
          ((regressionSums [5, 5, 5, 5, 5, 4]).sum_xx -
            (regressionSums [5, 5, 5, 5, 5, 4]).sum_x *
              (regressionSums [5, 5, 5, 5, 5, 4]).sum_x / nD)) ∧
    trendOfWindow [5, 5, 5, 5, 5, 4] = specVerdict [5, 5, 5, 5, 5, 4] :=
  decision_rule_sqrt_free [5, 5, 5, 5, 5, 4] (by decide)
    (by
      have hs : slopeOf [5, 5, 5, 5, 5, 4] = -1 / 7 := by rw [slopeOf_six]; norm_num
      have hi : interceptOf [5, 5, 5, 5, 5, 4] = 109 / 21 := by rw [interceptOf_six]; norm_num
      rw [sseOf_six, hs, hi]; norm_num)

/-! ## The checked function agrees with the code -/

theorem shiftDownChecked_six (a b c d e f : Int) :
    shiftDownChecked [a, b, c, d, e, f] = some [b, c, d, e, f, f] := by
  simp [shiftDownChecked, LuxHistorySize, List.range', readLux, writeLux]

theorem pushLuxChecked_six (a b c d e f : Int) (n : ℕ) (v : ℚ) :
    pushLuxChecked ⟨[a, b, c, d, e, f], n⟩ v = some (pushLux ⟨[a, b, c, d, e, f], n⟩ v) := by
  by_cases h : n < 6
  · simp [pushLuxChecked, pushLux, LuxHistorySize, h, writeLux]
  · simp [pushLuxChecked, pushLux, LuxHistorySize, h, writeLux, shiftDownChecked_six,
      shiftDown_six]

theorem regressionSumsChecked_six (a b c d e f : Int) :
    regressionSumsChecked [a, b, c, d, e, f] = some (regressionSums [a, b, c, d, e, f]) := by
  simp [regressionSumsChecked, regressionSums, range_six, readLux]

theorem sseChecked_six (a b c d e f : Int) :
    sseChecked [a, b, c, d, e, f] (slopeOf [a, b, c, d, e, f]) (interceptOf [a, b, c, d, e, f]) =
      some (sseOf [a, b, c, d, e, f]) := by
  simp [sseChecked, sseOf, range_six, readLux]

theorem pushLux_length_six (s : LuxState) (v : ℚ) (h : s.luxs.length = 6) :
    (pushLux s v).luxs.length = 6 := by
  obtain ⟨l, n⟩ := s
  obtain ⟨a, b, c, d, e, f, rfl⟩ := list_length_six l h
  by_cases hn : n < 6
  · simp [pushLux, LuxHistorySize, hn]
  · rw [pushLux_full _ _ _ _ _ _ _ hn]; rfl

theorem trendOfWindowChecked_six (a b c d e f : Int) :
    trendOfWindowChecked [a, b, c, d, e, f] = some (trendOfWindow [a, b, c, d, e, f]) := by
  have h : sseChecked [a, b, c, d, e, f]
      (((regressionSums [a, b, c, d, e, f]).sum_x * (regressionSums [a, b, c, d, e, f]).sum_y -
          nD * (regressionSums [a, b, c, d, e, f]).sum_xy) /
        ((regressionSums [a, b, c, d, e, f]).sum_x * (regressionSums [a, b, c, d, e, f]).sum_x -
          nD * (regressionSums [a, b, c, d, e, f]).sum_xx))
      (((regressionSums [a, b, c, d, e, f]).sum_y -
          ((regressionSums [a, b, c, d, e, f]).sum_x * (regressionSums [a, b, c, d, e, f]).sum_y -
            nD * (regressionSums [a, b, c, d, e, f]).sum_xy) /
          ((regressionSums [a, b, c, d, e, f]).sum_x * (regressionSums [a, b, c, d, e, f]).sum_x -
            nD * (regressionSums [a, b, c, d, e, f]).sum_xx) *
          (regressionSums [a, b, c, d, e, f]).sum_x) / nD) =
      some (sseOf [a, b, c, d, e, f]) := sseChecked_six a b c d e f
  simp only [trendOfWindowChecked, regressionSumsChecked_six, Option.bind_eq_bind,
    Option.some_bind, h]
  unfold trendOfWindow tObservedOf slopeOf
  split_ifs <;> rfl

theorem luxAnalysisIncludingChecked_six (s : LuxState) (v : ℚ) (h : s.luxs.length = 6) :
    luxAnalysisIncludingChecked s v = some (luxAnalysisIncluding s v) := by
  have hl := pushLux_length_six s v h
  obtain ⟨l, n⟩ := s
  obtain ⟨a, b, c, d, e, f, rfl⟩ := list_length_six l h
  obtain ⟨a', b', c', d', e', f', hw⟩ := list_length_six _ hl
  simp only [luxAnalysisIncludingChecked, pushLuxChecked_six, Option.bind_eq_bind,
    Option.some_bind, luxAnalysisIncluding]
  split_ifs
  · rfl
  · rw [hw, trendOfWindowChecked_six]; rfl

/-- Claim C15 (window-count invariant).  After `k` calls from the fresh state
`luxHistoryCount = min(k, 6)`; it never exceeds `LuxHistorySize` and never
decreases; the array keeps its 6 slots, and the next call performs every
write `luxs[luxHistoryCount]`, `luxs[i-1]`, `luxs[LuxHistorySize-1]` and
every read `luxs[i]` inside the array: the bounds-checked function succeeds
and returns what `luxAnalysisIncluding` returns. -/
theorem window_count_invariant (obs : ℕ → ℚ) (k : ℕ) :
    (stateAfter obs k).luxHistoryCount = min k LuxHistorySize ∧
    (stateAfter obs k).luxHistoryCount ≤ LuxHistorySize ∧
    (stateAfter obs k).luxHistoryCount ≤ (stateAfter obs (k + 1)).luxHistoryCount ∧
    (stateAfter obs k).luxs.length = LuxHistorySize ∧
    luxAnalysisIncludingChecked (stateAfter obs k) (obs k) =
      some (luxAnalysisIncluding (stateAfter obs k) (obs k)) := by
  obtain ⟨hc, hl, _⟩ := stateAfter_inv obs k
  obtain ⟨hc1, _, _⟩ := stateAfter_inv obs (k + 1)
  refine ⟨hc, ?_, ?_, hl, luxAnalysisIncludingChecked_six _ _ hl⟩
  · rw [hc]; exact min_le_right _ _
  · rw [hc, hc1]; omega

/-- The checked function does report an access outside a too short array. -/
theorem luxAnalysisIncludingChecked_short :
    luxAnalysisIncludingChecked ⟨[1, 2, 3], 4⟩ 5 = none := by
  simp [luxAnalysisIncludingChecked, pushLuxChecked, LuxHistorySize, writeLux]

/-! ## Monotonicity of the sequencer -/

theorem advance_cases (p luxVal trendKey : Int) :
    advancePayloadState p luxVal trendKey = p ∨
    (p = LoadingPayload ∧ advancePayloadState p luxVal trendKey = WaitingPayload) ∨
    (p = WaitingPayload ∧ advancePayloadState p luxVal trendKey = Finished) ∨
    (p = DeployingPayload ∧ advancePayloadState p luxVal trendKey = Finished) := by
  simp only [advancePayloadState, LoadingPayload, WaitingPayload, DeployingPayload, Finished,
    LowLux]
  by_cases h0 : p = 0 <;> by_cases h1 : p = 1 <;> by_cases h2 : p = 2 <;>
    by_cases hl : luxVal < 10 <;> by_cases hg : luxVal > 10 <;>
    by_cases ht : trendKey = 2 <;> simp [h0, h1, h2, hl, hg, ht] <;> omega

theorem advance_unchanged (p luxVal trendKey : Int)
    (h : trendKey ≠ PayloadTrendSteadyKey ∨ luxVal = LowLux) :
    advancePayloadState p luxVal trendKey = p := by
  simp only [advancePayloadState, LoadingPayload, WaitingPayload, DeployingPayload, Finished,
    LowLux, PayloadTrendSteadyKey] at h ⊢
  rcases h with h | h
  · simp [h]
  · subst h; simp

theorem sketchAfter_darkThenLight_7 :
    (sketchAfter darkThenLight 7).PayloadState = Finished := by
  rw [sketchAfter, loop_PayloadState, sketchAfter_darkThenLight_6, trendKey_sketchAfter,
    resultOf_darkThenLight_6, advance_waiting]
  simp [darkThenLight, LowLux]

/-- Claim C19 (sequencer monotonicity).  In the order
`Loading < Waiting < Deploying < Finished`, for every pass of `loop()` and
for every reading and trend key, `PayloadState` at the end of the pass is at
least its value at the start; `Finished` is absorbing; a pass whose trend key
is not `Steady`, or whose reading equals `LowLux`, leaves `PayloadState`
unchanged; one pass from `LoadingPayload` never reaches `Finished`, while
two passes can. -/
theorem sequencer_monotone (s : Sketch) (reading : Int) (p trendKey : Int) :
    s.PayloadState ≤ (loop s reading).PayloadState ∧
    p ≤ advancePayloadState p reading trendKey ∧
    (s.PayloadState = Finished → (loop s reading).PayloadState = Finished) ∧
    advancePayloadState Finished reading trendKey = Finished ∧
    ((luxAnalysisIncluding s.lux (reading : ℚ)).1 ≠ PayloadTrendSteadyKey →
      (loop s reading).PayloadState = s.PayloadState) ∧
    (trendKey ≠ PayloadTrendSteadyKey → advancePayloadState p reading trendKey = p) ∧
    (reading = LowLux → (loop s reading).PayloadState = s.PayloadState ∧
      advancePayloadState p reading trendKey = p) ∧
    (s.PayloadState = LoadingPayload → (loop s reading).PayloadState ≠ Finished) ∧
    advancePayloadState LoadingPayload reading trendKey ≠ Finished ∧
    ((sketchAfter darkThenLight 5).PayloadState = LoadingPayload ∧
      (sketchAfter darkThenLight 7).PayloadState = Finished) := by
  have mono : ∀ q t : Int, q ≤ advancePayloadState q reading t := by
    intro q t
    rcases advance_cases q reading t with h | ⟨h1, h2⟩ | ⟨h1, h2⟩ | ⟨h1, h2⟩
    · rw [h]
    · rw [h2, h1]; decide
    · rw [h2, h1]; decide
    · rw [h2, h1]; decide
  have fin : ∀ t : Int, advancePayloadState Finished reading t = Finished := by
    intro t
    rcases advance_cases Finished reading t with h | ⟨h1, _⟩ | ⟨h1, _⟩ | ⟨h1, _⟩
    · exact h
    · exact absurd h1 (by decide)
    · exact absurd h1 (by decide)
    · exact absurd h1 (by decide)
  have load : ∀ t : Int, advancePayloadState LoadingPayload reading t ≠ Finished := by
    intro t
    rw [advance_loading]
    split_ifs <;> decide
  refine ⟨?_, mono p trendKey, ?_, fin trendKey, ?_, ?_, ?_, ?_, load trendKey,
    sketchAfter_loading _ 5 (le_refl 5), sketchAfter_darkThenLight_7⟩
  · rw [loop_PayloadState]; exact mono _ _
  · intro h; rw [loop_PayloadState, h]; exact fin _
  · intro h; rw [loop_PayloadState]; exact advance_unchanged _ _ _ (Or.inl h)
  · intro h; exact advance_unchanged _ _ _ (Or.inl h)
  · intro h
    exact ⟨by rw [loop_PayloadState]; exact advance_unchanged _ _ _ (Or.inr h),
      advance_unchanged _ _ _ (Or.inr h)⟩
  · intro h; rw [loop_PayloadState, h]; exact load _

/-! ## Instances of the theorems above -/

theorem verdict_agrees_with_slope_sign_witness :
    0 < slopeOf [0, 1, 2, 3, 4, 5] ∧
    (slopeOf [1, 3, 2, 2, 3, 1] = 0 ∧
      trendOfWindow [1, 3, 2, 2, 3, 1] = PayloadTrendSteadyKey) :=
  ⟨(verdict_agrees_with_slope_sign [0, 1, 2, 3, 4, 5] (by decide)).1
      (by have h := trendOfWindow_ramp 0 1; simpa using h),
   (verdict_agrees_with_slope_sign [1, 3, 2, 2, 3, 1] (by decide)).2.2.1
      (by simp only [regressionSums_six, nD_eq]; norm_num)⟩

theorem verdict_depends_on_window_only_witness :
    resultOf (ramp 0 1) (8 - 1) = resultOf (ramp 2 1) (6 - 1) ∧
    (stateAfter (ramp 0 1) 8).luxs = (stateAfter (ramp 2 1) 6).luxs :=
  verdict_depends_on_window_only (ramp 0 1) (ramp 2 1) 8 6 (by decide) (by decide)
    (by
      intro i _
      simp only [ramp, LuxHistorySize]
      push_cast
      ring)

theorem verdict_affine_invariant_witness :
    trendOfWindow ([5, 5, 5, 5, 5, 4].map (fun y => 2 * y + 3)) =
      trendOfWindow [5, 5, 5, 5, 5, 4] :=
  verdict_affine_invariant [5, 5, 5, 5, 5, 4] (by decide) 2 3 (by decide)

theorem verdict_sign_antisymmetric_witness :
    trendOfWindow ([0, 1, 2, 3, 4, 5].map (fun y => -y)) =
      if trendOfWindow [0, 1, 2, 3, 4, 5] = PayloadTrendRisingKey then PayloadTrendFallingKey
      else if trendOfWindow [0, 1, 2, 3, 4, 5] = PayloadTrendFallingKey
        then PayloadTrendRisingKey
      else PayloadTrendSteadyKey :=
  verdict_sign_antisymmetric [0, 1, 2, 3, 4, 5] (by decide)

theorem sequencer_monotone_witness :
    ((loop (sketchAfter darkThenLight 6) 10).PayloadState =
        (sketchAfter darkThenLight 6).PayloadState ∧
      advancePayloadState WaitingPayload 10 PayloadTrendRisingKey = WaitingPayload) ∧
    (loop (sketchAfter darkThenLight 5) 5).PayloadState ≠ Finished :=
  ⟨(sequencer_monotone (sketchAfter darkThenLight 6) 10 WaitingPayload
      PayloadTrendRisingKey).2.2.2.2.2.2.1 (by decide),
   (sequencer_monotone (sketchAfter darkThenLight 5) 5 WaitingPayload
      PayloadTrendRisingKey).2.2.2.2.2.2.2.1 (sketchAfter_loading _ 5 (le_refl 5))⟩

end LightMotorPayload
